import Mathlib

/-!
Shallow embedding of the pesticide search backend (`backend/app.py`).

The database is a list of rows of the single table `crop_usage`; SQL
equality lookups become list filters, `LIKE '%kw%'` becomes a substring
test, Python dicts used as insertion-ordered grouping maps become
association lists, and Python sets become lists used only through
membership.  Result cards (`ProductCard` / `NoMatchCard`) become one
`Card` structure with a `noMatch` flag, mirroring the dict shapes built
by the handlers.
-/

namespace PaiPai

/-- Boolean test that the first char list is a prefix of the second. -/
def prefB : List Char → List Char → Bool
  | [], _ => true
  | _ :: _, [] => false
  | a :: as, b :: bs => a == b && prefB as bs

/-- Boolean test that `n` occurs contiguously inside the second list. -/
def subB (n : List Char) : List Char → Bool
  | [] => prefB n []
  | c :: hs => prefB n (c :: hs) || subB n hs

/-- `substrB needle hay` models Python `needle in hay`, and the SQL
pattern `LIKE '%needle%'` used by the handlers. -/
def substrB (needle hay : String) : Bool :=
  subB needle.data hay.data

/-- Python `', '.join(...)`. -/
def joinComma (l : List String) : String :=
  String.intercalate ", " l

/-- One character of the NFKC mapping used by `normalize_pest_name`,
modelled on the repertoire this dataset exercises: the full-width ASCII
variants U+FF01–U+FF5E fold to their ASCII forms and the ideographic
space U+3000 folds to an ASCII space; CJK ideographs and ASCII are
NFKC-stable and map to themselves. -/
def nfkcChar (c : Char) : Char :=
  if 0xFF01 ≤ c.toNat ∧ c.toNat ≤ 0xFF5E then Char.ofNat (c.toNat - 0xFEE0)
  else if c = '　' then ' '
  else c

/-- Character-list body of `normalize_pest_name`: NFKC-fold, remove the
ASCII space and the full-width space, lowercase. -/
def normalizeChars (cs : List Char) : List Char :=
  ((cs.map nfkcChar).filter (fun c => !(c == ' ' || c == '　'))).map Char.toLower

/-- `normalize_pest_name` (app.py lines 26–32): empty input yields the
empty string, otherwise NFKC normalization, space stripping, and
lowercasing. -/
def normalize_pest_name (name : String) : String :=
  if name = "" then "" else String.mk (normalizeChars name.data)

/-- One row of the `crop_usage` table.  The five textual fields that the
handlers guard with `or ''` are optional, so a NULL can be observed at
card-construction sites. -/
structure Row where
  crop : String          -- 作物名稱
  pest : String          -- 病蟲害名稱
  chem : String          -- 中文名稱
  brand : String         -- 廠牌名稱
  barcode : String       -- 條碼
  form : String          -- 劑型
  conc : String          -- 含量
  mechName : Option String := none   -- 作用機制名稱
  mechNote : Option String := none   -- 作用機制備註
  harvest : Option String := none    -- 安全採收期
  dilution : Option String := none   -- 稀釋倍數
  dosage : Option String := none     -- 每公頃使用用藥量
deriving DecidableEq, Repr

/-- One usage entry of a card (the dict appended to `usages`). -/
structure Usage where
  crop : String               -- 作物名稱
  pestName : String           -- 病蟲害名稱
  pestNameNormalized : String -- 病蟲害名稱_normalized
  harvest : String            -- 安全採收期
  dilution : String           -- 稀釋倍數
  dosage : String             -- 每公頃使用用藥量
deriving DecidableEq, Repr

/-- A result card.  `noMatch = true` marks the synthetic NoMatchCards;
absent dict keys are modelled by the defaults (`get` with a default is
how the Python reads them back). `mechName`/`mechNote` are `Option`
because one construction site stores the raw, possibly NULL, column. -/
structure Card where
  noMatch : Bool := false
  errorMessage : String := ""          -- error_message
  name : String := ""                  -- 中文名稱 (display name)
  rawChemName : String := ""           -- raw_chem_name
  rowCrop : String := ""               -- 作物名稱 (chem-only cards)
  rowPest : String := ""               -- 病蟲害名稱 (chem-only cards)
  form : String := ""                  -- 劑型
  conc : String := ""                  -- 含量
  mechName : Option String := none     -- 作用機制名稱
  mechNote : Option String := none     -- 作用機制備註
  usages : List Usage := []
  hasCommonPesticide : Bool := false   -- has_common_pesticide
  hasExactMatch : Bool := false        -- has_exact_match (never set)
  crop : String := ""
  keyword : String := ""
  isCropAndPestSearch : Bool := false  -- is_crop_and_pest_search
  queryType : String := ""             -- query_type
deriving DecidableEq, Repr

/-- The usage identity compared by `remove_duplicate_usages`. -/
def sameUsage (u v : Usage) : Bool :=
  u.pestName == v.pestName && u.harvest == v.harvest &&
  u.dilution == v.dilution && u.dosage == v.dosage

/-- `remove_duplicate_usages` (app.py lines 43–55): keep each usage whose
(pest, harvest, dilution, dosage) identity has not been seen yet. -/
def remove_duplicate_usages (usages : List Usage) : List Usage :=
  usages.foldl (fun acc u => if acc.any (fun v => sameUsage v u) then acc else acc ++ [u]) []

/-- The `f"{中文名稱}__{劑型}__{含量}"` key of a row. -/
def rowKey (r : Row) : String :=
  r.chem ++ "__" ++ r.form ++ "__" ++ r.conc

/-- The same key computed from a card's fields. -/
def cardKey (c : Card) : String :=
  c.name ++ "__" ++ c.form ++ "__" ++ c.conc

/-- `remove_duplicate_pesticides` (app.py lines 34–41): keep the first
card for each (chemical, formulation, concentration) key. -/
def remove_duplicate_pesticides (ps : List Card) : List Card :=
  ps.foldl (fun acc p => if acc.any (fun q => cardKey q == cardKey p) then acc else acc ++ [p]) []

/-! ### Database queries -/

def rowsCropPestLike (db : List Row) (crop pest : String) : List Row :=
  db.filter (fun r => r.crop == crop && substrB pest r.pest)

def rowsCropEq (db : List Row) (crop : String) : List Row :=
  db.filter (fun r => r.crop == crop)

def rowsChemEq (db : List Row) (chem : String) : List Row :=
  db.filter (fun r => r.chem == chem)

def rowsBrandEq (db : List Row) (brand : String) : List Row :=
  db.filter (fun r => r.brand == brand)

def rowsBarcodeEq (db : List Row) (barcode : String) : List Row :=
  db.filter (fun r => r.barcode == barcode)

def rowsCropChem (db : List Row) (crop chem : String) : List Row :=
  db.filter (fun r => r.crop == crop && r.chem == chem)

def rowsCropBrand (db : List Row) (crop brand : String) : List Row :=
  db.filter (fun r => r.crop == crop && r.brand == brand)

def rowsCropBarcode (db : List Row) (crop barcode : String) : List Row :=
  db.filter (fun r => r.crop == crop && r.barcode == barcode)

/-- The fallback `OR`-lookup over five columns with `LIKE '%kw%'`. -/
def rowsFuzzy (db : List Row) (kw : String) : List Row :=
  db.filter (fun r => substrB kw r.crop || substrB kw r.pest || substrB kw r.chem ||
    substrB kw r.brand || substrB kw r.barcode)

/-- Insert into a Python-set-as-list, keeping first occurrences. -/
def setInsert (s : List String) (x : String) : List String :=
  if x ∈ s then s else s ++ [x]

def listToSet (l : List String) : List String :=
  l.foldl setInsert []

/-- `SELECT DISTINCT 中文名稱, 劑型, 含量 ... ` as the set of string keys
built at app.py line 185. -/
def distinctTriples (db : List Row) (crop pest : String) : List String :=
  listToSet ((rowsCropPestLike db crop pest).map rowKey)

/-! ### Shared card grouping -/

/-- The usage dict appended at every handler's usage-construction site:
the three dosing fields go through `or ''`. -/
def mkUsage (r : Row) : Usage :=
  { crop := r.crop
    pestName := r.pest
    pestNameNormalized := normalize_pest_name r.pest
    harvest := r.harvest.getD ""
    dilution := r.dilution.getD ""
    dosage := r.dosage.getD "" }

/-- One step of building a `pesticide_map`: create the card on first
sight of the key, then append the row's usage entry to that card. -/
def addRowToMap (mkCard : Row → Card) (m : List (String × Card)) (r : Row) :
    List (String × Card) :=
  (if m.any (fun e => e.1 == rowKey r) then m else m ++ [(rowKey r, mkCard r)]).map
    (fun e => if e.1 == rowKey r then (e.1, { e.2 with usages := e.2.usages ++ [mkUsage r] }) else e)

/-- The shared `pesticide_map` shape of the handlers: group rows by
(chemical, formulation, concentration), then deduplicate each card's
usages. -/
def groupRows (mkCard : Row → Card) (rows : List Row) : List Card :=
  (rows.foldl (addRowToMap mkCard) []).map
    (fun e => { e.2 with usages := remove_duplicate_usages e.2.usages })

/-! ### Handler 1: crop + several pests (intersection), app.py 178–232 -/

def interNoMatch (crop : String) (pests : List String) : Card :=
  { noMatch := true
    errorMessage := "無共同防治藥劑：" ++ crop ++ "的" ++ joinComma pests
    crop := crop
    keyword := joinComma pests }

/-- The card dict built at app.py lines 203–214.  Note the mechanism
fields are stored without the `or ''` guard used elsewhere. -/
def mkInterCard (crop : String) (pests : List String) (r : Row) : Card :=
  { name := r.chem
    form := r.form
    conc := r.conc
    mechName := r.mechName
    mechNote := r.mechNote
    hasCommonPesticide := true
    crop := crop
    keyword := joinComma pests
    isCropAndPestSearch := true }

/-- The `all_pesticides` accumulation at app.py lines 181–189: an empty
accumulator is (re)seeded by the next pest's triple set instead of being
intersected with it. -/
def interTriples (db : List Row) (crop : String) (pests : List String) : List String :=
  pests.foldl (fun acc pest =>
    let s := distinctTriples db crop pest
    if acc = [] then s else acc.filter (fun k => k ∈ s)) []

/-- The `all_rows` pooled at app.py lines 198–201. -/
def interAllRows (db : List Row) (crop : String) (pests : List String) : List Row :=
  pests.flatMap (fun pest => rowsCropPestLike db crop pest)

/-- The `unique_pesticides` list of app.py lines 202–216. -/
def interUniq (db : List Row) (crop : String) (pests : List String) : List Card :=
  (remove_duplicate_pesticides ((interAllRows db crop pests).map (mkInterCard crop pests))).filter
    (fun p => cardKey p ∈ interTriples db crop pests)

/-- The usage entries attached to one intersection card: every pooled row
matching the card's identity triple (app.py lines 217–229). -/
def interUsagesFor (db : List Row) (crop : String) (pests : List String) (p : Card) : List Usage :=
  ((interAllRows db crop pests).filter
    (fun r => r.chem == p.name && r.form == p.form && r.conc == p.conc)).map mkUsage

/-- Attaching every matching row's usage entry to a card and
deduplicating them (app.py lines 217–230). -/
def interAttach (db : List Row) (crop : String) (pests : List String) (p : Card) : Card :=
  { p with usages := remove_duplicate_usages (interUsagesFor db crop pests p) }

def perCropIntersection (db : List Row) (pests : List String) (crop : String) : List Card :=
  if interTriples db crop pests = [] then [interNoMatch crop pests]
  else (interUniq db crop pests).map (interAttach db crop pests)

def handle_crop_pests_intersection (db : List Row) (crops pests : List String) : List Card :=
  crops.flatMap (perCropIntersection db pests)

/-! ### Handler 2: crop + single pest, app.py 235–274 -/

def singlePestNoMatch (crop pest : String) : Card :=
  { noMatch := true
    errorMessage := "無登記使用防治藥劑：" ++ crop ++ "的" ++ pest
    crop := crop
    keyword := pest }

def mkSinglePestCard (crop pest : String) (r : Row) : Card :=
  { name := r.chem
    form := r.form
    conc := r.conc
    mechName := some (r.mechName.getD "")
    mechNote := some (r.mechNote.getD "")
    crop := crop
    keyword := pest
    isCropAndPestSearch := true }

def singlePestPerCrop (db : List Row) (pest crop : String) : List Card :=
  if rowsCropPestLike db crop pest = [] then [singlePestNoMatch crop pest]
  else groupRows (mkSinglePestCard crop pest) (rowsCropPestLike db crop pest)

def handle_crop_single_pest (db : List Row) (crops : List String) (pest : String) : List Card :=
  crops.flatMap (singlePestPerCrop db pest)

/-! ### Handler 3: crop + chemical/brand/barcode, app.py 277–430 -/

/-- The card dict built at app.py lines 348–361. -/
def mkMixedCard (crop kw kwType : String) (r : Row) : Card :=
  let display :=
    if kwType == "brand" then r.chem ++ "（" ++ r.brand ++ "）"
    else if kwType == "barcode" then r.chem ++ "（" ++ r.brand ++ "） 條碼：" ++ r.barcode
    else r.chem
  { name := display
    rawChemName := r.chem
    form := r.form
    conc := r.conc
    mechName := some (r.mechName.getD "")
    mechNote := some (r.mechNote.getD "")
    crop := crop
    keyword := kw
    isCropAndPestSearch := false
    queryType := if kwType == "chem" then "作物+農藥" else "作物+" ++ kwType }

/-- The NoMatchCard inserted at the front when a (crop, keyword) lookup
returns no rows, with the type-specific display name (app.py 297–327). -/
def mixedNoMatchCard (db : List Row) (crop kw kwType : String) : Card :=
  let display :=
    if kwType == "chem" then kw
    else if kwType == "brand" then
      match listToSet ((rowsBrandEq db kw).map (fun r => r.chem)) with
      | [] => "（" ++ kw ++ "）"
      | c :: _ => c ++ "（" ++ kw ++ "）"
    else
      match (rowsBarcodeEq db kw).head? with
      | some r => r.chem ++ "（" ++ r.brand ++ "） 條碼：" ++ kw
      | none => "條碼：" ++ kw
  { noMatch := true
    errorMessage := display ++ " 無法使用於作物：" ++ crop
    crop := crop
    keyword := kw
    queryType := if kwType == "chem" then "作物+農藥" else "作物+" ++ kwType }

/-- `pest_names_by_chem` updates: per raw chemical name, the set of pest
names seen (insertion-ordered, membership-relevant only). -/
def pnbcAdd (p : List (String × List String)) (chem pest : String) :
    List (String × List String) :=
  if p.any (fun e => e.1 == chem) then
    p.map (fun e => if e.1 == chem then (e.1, if pest ∈ e.2 then e.2 else e.2 ++ [pest]) else e)
  else p ++ [(chem, [pest])]

/-- The keyword-type resolution of app.py lines 285–295: chemical first,
then brand, then barcode, with the scoped equality lookup. -/
def resolveMixedKw (db : List Row) (chems brands barcodes : List String) (crop kw : String) :
    Option (String × List Row) :=
  if kw ∈ chems then some ("chem", rowsCropChem db crop kw)
  else if kw ∈ brands then some ("brand", rowsCropBrand db crop kw)
  else if kw ∈ barcodes then some ("barcode", rowsCropBarcode db crop kw)
  else none

/-- Pass 1 step for one (crop, keyword) pair: resolve the keyword type,
run the scoped lookup, insert a NoMatchCard at the front on an empty
result, otherwise record pest names and append the grouped cards. -/
def mixedStep (db : List Row) (chems brands barcodes : List String) (crop : String)
    (st : List Card × List (String × List String)) (kw : String) :
    List Card × List (String × List String) :=
  match resolveMixedKw db chems brands barcodes crop kw with
  | none => st
  | some (kwType, rows) =>
    if rows = [] then (mixedNoMatchCard db crop kw kwType :: st.1, st.2)
    else (st.1 ++ groupRows (mkMixedCard crop kw kwType) rows,
      rows.foldl (fun p r => pnbcAdd p r.chem r.pest) st.2)

def mixedPhase1 (db : List Row) (chems brands barcodes crops kws : List String) :
    List Card × List (String × List String) :=
  crops.foldl (fun st crop => kws.foldl (mixedStep db chems brands barcodes crop) st) ([], [])

/-- Removing every `葉` character, Python `s.replace('葉', '')`. -/
def stripLeaf (s : String) : String :=
  String.mk (s.data.filter (fun c => !(c == '葉')))

/-- The three rules of app.py lines 392–397 under which two pest names
count as the same pest. -/
def pestPairMatch (p1 p2 : String) : Bool :=
  p1 == p2 || substrB p1 p2 || substrB p2 p1 || (stripLeaf p1 == stripLeaf p2)

def allPairs {α : Type} : List α → List (α × α)
  | [] => []
  | x :: xs => xs.map (fun y => (x, y)) ++ allPairs xs

/-- `duplicate_pests` (app.py 374–401): every pest name that matches a
pest name of a different raw chemical under `pestPairMatch`. -/
def duplicatePests (p : List (String × List String)) : List String :=
  (allPairs p).flatMap (fun e =>
    e.1.2.flatMap (fun p1 => e.2.2.flatMap (fun p2 =>
      if pestPairMatch p1 p2 then [p1, p2] else [])))

/-- Pass 3 rewriting of one usage entry (app.py 409–413). -/
def markUsage (dup : List String) (u : Usage) : Usage :=
  if u.pestName ∈ dup then { u with pestName := "#" ++ u.pestName } else u

/-- Pass 3 rewriting of one card: NoMatchCards are skipped. -/
def markCard (dup : List String) (c : Card) : Card :=
  if c.noMatch then c else { c with usages := c.usages.map (markUsage dup) }

/-- `marked_count` (app.py 406–413). -/
def markedCount (dup : List String) (cards : List Card) : Nat :=
  cards.foldl (fun n c =>
    if c.noMatch then n else n + c.usages.countP (fun u => decide (u.pestName ∈ dup))) 0

def noOverlapCard (crops kws : List String) : Card :=
  { noMatch := true
    errorMessage := "沒有重複防治的害物"
    crop := crops.headD ""
    keyword := joinComma kws }

/-- The duplicate-pest set computed from pass 1's `pest_names_by_chem`. -/
def mixedDup (db : List Row) (chems brands barcodes crops kws : List String) : List String :=
  duplicatePests (mixedPhase1 db chems brands barcodes crops kws).2

def handle_crop_mixed_keywords (db : List Row)
    (crops kws chems brands barcodes : List String) : List Card :=
  if markedCount (mixedDup db chems brands barcodes crops kws)
      (mixedPhase1 db chems brands barcodes crops kws).1 = 0 ∧ kws.length ≥ 2 then
    noOverlapCard crops kws ::
      (mixedPhase1 db chems brands barcodes crops kws).1.map
        (markCard (mixedDup db chems brands barcodes crops kws))
  else
    (mixedPhase1 db chems brands barcodes crops kws).1.map
      (markCard (mixedDup db chems brands barcodes crops kws))

/-! ### Handlers 4–8: single-bucket strategies, app.py 433–592 -/

def mkPlainCard (r : Row) : Card :=
  { name := r.chem
    form := r.form
    conc := r.conc
    mechName := some (r.mechName.getD "")
    mechNote := some (r.mechNote.getD "") }

def mkChemCard (r : Row) : Card :=
  { mkPlainCard r with rowCrop := r.crop, rowPest := r.pest }

def mkBrandCard (r : Row) : Card :=
  { mkPlainCard r with name := r.chem ++ "（" ++ r.brand ++ "）" }

def mkBarcodeCard (r : Row) : Card :=
  { mkPlainCard r with name := r.chem ++ "（" ++ r.brand ++ "） 條碼：" ++ r.barcode }

def handle_crop_only (db : List Row) (crops : List String) : List Card :=
  crops.flatMap (fun crop => groupRows mkPlainCard (rowsCropEq db crop))

def handle_chem_only (db : List Row) (chems : List String) : List Card :=
  chems.flatMap (fun chem => groupRows mkChemCard (rowsChemEq db chem))

def handle_brand_only (db : List Row) (brands : List String) : List Card :=
  brands.flatMap (fun brand => groupRows mkBrandCard (rowsBrandEq db brand))

def handle_barcode_only (db : List Row) (barcodes : List String) : List Card :=
  barcodes.flatMap (fun barcode => groupRows mkBarcodeCard (rowsBarcodeEq db barcode))

def handle_fallback_partial_match (db : List Row) (others : List String) : List Card :=
  others.flatMap (fun kw => groupRows mkPlainCard (rowsFuzzy db kw))

/-! ### Ranker, app.py 161–175 -/

/-- `extract_days`: strip every non-digit character and parse, `none`
standing for the `float('inf')` fallback of empty or unparsable text. -/
def extract_days (text : String) : Option Nat :=
  if text = "" then none
  else
    let ds := text.data.filter Char.isDigit
    if ds = [] then none
    else some (ds.foldl (fun n c => n * 10 + (c.toNat - 48)) 0)

/-- The first non-empty safe-harvest-interval among a card's usages,
defaulting to the empty string. -/
def firstHarvest (c : Card) : String :=
  match c.usages.find? (fun u => u.harvest != "") with
  | some u => u.harvest
  | none => ""

/-- Python `-x.get('has_exact_match', False)`: `0` for false, `-1` for true. -/
def flagKey (c : Card) : Int :=
  if c.hasExactMatch then -1 else 0

def daysKey (c : Card) : Option Nat :=
  extract_days (firstHarvest c)

/-- Ascending order on extracted day counts, `none` being `+∞`. -/
def optDaysLe : Option Nat → Option Nat → Bool
  | _, none => true
  | none, some _ => false
  | some a, some b => decide (a ≤ b)

/-- The lexicographic comparison of the Python sort-key tuples. -/
def keyLe (a b : Card) : Bool :=
  if flagKey a = flagKey b then optDaysLe (daysKey a) (daysKey b)
  else decide (flagKey a < flagKey b)

def cardLE (a b : Card) : Prop := keyLe a b = true

instance : DecidableRel cardLE := fun a b =>
  inferInstanceAs (Decidable (keyLe a b = true))

/-- `deduplicate_and_sort_results`: a stable sort by the two-part key;
the extra keyword parameters are unused by the source as well. -/
def deduplicate_and_sort_results (results : List Card)
    (_cropKws _pestKws _allKws : List String) : List Card :=
  List.insertionSort cardLE results

/-! ### Entry point, app.py 65–159 -/

/-- The whitespace class of Python `\s` on the repertoire this dataset
exercises (ASCII whitespace and the ideographic space). -/
def isPyWs (c : Char) : Bool :=
  c.isWhitespace || c == '　'

def isSep (c : Char) : Bool :=
  c == ',' || c == '，' || isPyWs c

/-- Splitting on the separator class of `re.split(r'[,，\s]+', ...)`. -/
def splitSeps : List Char → List (List Char)
  | [] => [[]]
  | c :: cs =>
    if isSep c then [] :: splitSeps cs
    else
      match splitSeps cs with
      | [] => [[c]]
      | t :: ts => (c :: t) :: ts

/-- Python `str.strip()` on a char list. -/
def stripChars (cs : List Char) : List Char :=
  ((cs.dropWhile isPyWs).reverse.dropWhile isPyWs).reverse

/-- The `keyword_list` built at app.py line 74: split, strip, drop empties. -/
def keyword_list (q : String) : List String :=
  ((splitSeps q.data).map (fun cs => String.mk (stripChars cs))).filter (fun s => s ≠ "")

def allCrops (db : List Row) : List String := db.map (fun r => r.crop)
def allPests (db : List Row) : List String := db.map (fun r => r.pest)
def allChems (db : List Row) : List String := db.map (fun r => r.chem)
def allBrands (db : List Row) : List String := db.map (fun r => r.brand)
def allBarcodes (db : List Row) : List String := db.map (fun r => r.barcode)

/-- The classification of app.py lines 96–104: each bucket keeps the
keywords that occur verbatim in the corresponding reference set. -/
def cropsOf (db : List Row) (kws : List String) : List String :=
  kws.filter (fun k => (allCrops db).contains k)

def pestsOf (db : List Row) (kws : List String) : List String :=
  kws.filter (fun k => (allPests db).contains k)

def chemsOf (db : List Row) (kws : List String) : List String :=
  kws.filter (fun k => (allChems db).contains k)

def brandsOf (db : List Row) (kws : List String) : List String :=
  kws.filter (fun k => (allBrands db).contains k)

def barcodesOf (db : List Row) (kws : List String) : List String :=
  kws.filter (fun k => (allBarcodes db).contains k)

def othersOf (db : List Row) (kws : List String) : List String :=
  kws.filter (fun k => !((allCrops db).contains k || (allPests db).contains k ||
    (allChems db).contains k || (allBrands db).contains k || (allBarcodes db).contains k))

def mixedOf (db : List Row) (kws : List String) : List String :=
  chemsOf db kws ++ brandsOf db kws ++ barcodesOf db kws

/-- The routing of app.py lines 106–141: the concatenated outputs of the
eight conditionally fired strategies, in source order. -/
def searchResults (db : List Row) (kws : List String) : List Card :=
  (if cropsOf db kws ≠ [] ∧ (pestsOf db kws).length ≥ 2 then
    handle_crop_pests_intersection db (cropsOf db kws) (pestsOf db kws) else []) ++
  (if cropsOf db kws ≠ [] ∧ (pestsOf db kws).length = 1 then
    handle_crop_single_pest db (cropsOf db kws) ((pestsOf db kws).headD "") else []) ++
  (if cropsOf db kws ≠ [] ∧ mixedOf db kws ≠ [] then
    handle_crop_mixed_keywords db (cropsOf db kws) (mixedOf db kws)
      (allChems db) (allBrands db) (allBarcodes db) else []) ++
  (if cropsOf db kws ≠ [] ∧ pestsOf db kws = [] ∧ mixedOf db kws = [] then
    handle_crop_only db (cropsOf db kws) else []) ++
  (if chemsOf db kws ≠ [] ∧ cropsOf db kws = [] then
    handle_chem_only db (chemsOf db kws) else []) ++
  (if brandsOf db kws ≠ [] ∧ cropsOf db kws = [] then
    handle_brand_only db (brandsOf db kws) else []) ++
  (if barcodesOf db kws ≠ [] ∧ cropsOf db kws = [] then
    handle_barcode_only db (barcodesOf db kws) else []) ++
  (if cropsOf db kws = [] ∧ pestsOf db kws = [] ∧ mixedOf db kws = [] ∧ othersOf db kws ≠ [] then
    handle_fallback_partial_match db (othersOf db kws) else [])

def runSearch (db : List Row) (kws : List String) : List Card :=
  deduplicate_and_sort_results (searchResults db kws) (cropsOf db kws) (pestsOf db kws) kws

/-- The `/api/search` core: empty or separator-only input short-circuits
to an empty list; otherwise classify and run the handler strategies. -/
def search_pesticides (db : List Row) (q : String) : List Card :=
  if q = "" then []
  else if keyword_list q = [] then []
  else runSearch db (keyword_list q)

/-- The secondary-key-only comparison, used to express that the primary
key never discriminates when no card carries the exact-match flag. -/
def daysLE (a b : Card) : Prop := optDaysLe (daysKey a) (daysKey b) = true

instance : DecidableRel daysLE := fun a b =>
  inferInstanceAs (Decidable (optDaysLe (daysKey a) (daysKey b) = true))

/-! ### Concrete databases and cards used as test inputs -/

/-- Crop `c` has pest `q` treated by chemical `x`; pest `p` exists in the
dataset but only on crop `d`, so for crop `c` the pest-`p` lookup is empty. -/
def dbA : List Row := [
  { crop := "c", pest := "q", chem := "x", brand := "b", barcode := "z", form := "f", conc := "k" },
  { crop := "d", pest := "p", chem := "x", brand := "b", barcode := "z", form := "f", conc := "k" }]

/-- Chemical `x` on crop `c` controls pests `蛾` and `#蛾` (identical
dosing fields); chemical `y` controls `夜蛾`, which overlaps `蛾` by
substring containment. -/
def dbB : List Row := [
  { crop := "c", pest := "蛾", chem := "x", brand := "b", barcode := "z1", form := "f", conc := "k" },
  { crop := "c", pest := "#蛾", chem := "x", brand := "b", barcode := "z1", form := "f", conc := "k" },
  { crop := "c", pest := "夜蛾", chem := "y", brand := "b", barcode := "z2", form := "f", conc := "k" }]

/-- Two pests of crop `c` share chemical `x`, whose mechanism columns are
NULL. -/
def dbC : List Row := [
  { crop := "c", pest := "pa", chem := "x", brand := "b", barcode := "z", form := "f", conc := "k" },
  { crop := "c", pest := "pb", chem := "x", brand := "b", barcode := "z", form := "f", conc := "k" }]

/-- The spec's §8 mixed-keyword scenario: both `甲基拌磷` and `乙託` are
registered against `夜蛾` on crop `甘藍`. -/
def dbD : List Row := [
  { crop := "甘藍", pest := "夜蛾", chem := "甲基拌磷", brand := "b1", barcode := "z1",
    form := "f1", conc := "k1" },
  { crop := "甘藍", pest := "夜蛾", chem := "乙託", brand := "b2", barcode := "z2",
    form := "f2", conc := "k2" }]

def usage7 : Usage :=
  { crop := "t", pestName := "p1", pestNameNormalized := "p1", harvest := "7天",
    dilution := "", dosage := "" }

def usage14 : Usage :=
  { crop := "t", pestName := "p2", pestNameNormalized := "p2", harvest := "14天",
    dilution := "", dosage := "" }

def card7 : Card := { name := "a7", usages := [usage7] }

def card14 : Card := { name := "a14", usages := [usage14] }

def rowE : Row :=
  { crop := "c", pest := "p", chem := "x", brand := "b", barcode := "z", form := "f", conc := "k" }

/-- Pass-1 cards of the spec's §8 mixed scenario on `dbD`. -/
def phase1D : List Card :=
  (mixedPhase1 dbD (allChems dbD) (allBrands dbD) (allBarcodes dbD) ["甘藍"] ["甲基拌磷", "乙託"]).1

def dupD : List String :=
  mixedDup dbD (allChems dbD) (allBrands dbD) (allBarcodes dbD) ["甘藍"] ["甲基拌磷", "乙託"]

def cardD : Card := phase1D.headD {}

def usageD : Usage := cardD.usages.headD (mkUsage rowE)

/-- The single ProductCard returned for the query `c q` on `dbA`. -/
def cardE : Card := (search_pesticides dbA "c q").headD {}

/-- The single card of the crop-only strategy for crop `c` on `dbA`. -/
def cardF : Card := (handle_crop_only dbA ["c"]).headD {}

/-! ### Generic lemmas about the first-occurrence deduplication fold -/

theorem dedupFold_subset {α : Type} (f : α → α → Bool) :
    ∀ (l acc : List α) (x : α),
      x ∈ l.foldl (fun acc u => if acc.any (fun v => f v u) then acc else acc ++ [u]) acc →
      x ∈ acc ∨ x ∈ l := by
  intro l
  induction l with
  | nil => intro acc x h; exact Or.inl h
  | cons u t ih =>
    intro acc x h
    simp only [List.foldl_cons] at h
    by_cases hb : acc.any (fun v => f v u) = true
    · rw [if_pos hb] at h
      rcases ih acc x h with h' | h'
      · exact Or.inl h'
      · exact Or.inr (List.mem_cons_of_mem u h')
    · rw [if_neg hb] at h
      rcases ih (acc ++ [u]) x h with h' | h'
      · rcases List.mem_append.mp h' with h'' | h''
        · exact Or.inl h''
        · exact Or.inr (by simp_all)
      · exact Or.inr (List.mem_cons_of_mem u h')

theorem dedupFold_pairwise {α : Type} (f : α → α → Bool) :
    ∀ (l acc : List α), acc.Pairwise (fun a b => f a b = false) →
      (l.foldl (fun acc u => if acc.any (fun v => f v u) then acc else acc ++ [u]) acc).Pairwise
        (fun a b => f a b = false) := by
  intro l
  induction l with
  | nil => intro acc h; exact h
  | cons u t ih =>
    intro acc h
    simp only [List.foldl_cons]
    by_cases hb : acc.any (fun v => f v u) = true
    · rw [if_pos hb]; exact ih acc h
    · rw [if_neg hb]
      apply ih
      rw [List.pairwise_append]
      refine ⟨h, List.pairwise_singleton _ _, ?_⟩
      intro a ha b hb'
      have hb'' : acc.any (fun v => f v u) = false := by simpa using hb
      rw [List.mem_singleton.mp hb']
      exact Bool.eq_false_iff.mpr (List.any_eq_false.mp hb'' a ha)

theorem dedupFold_of_pairwise {α : Type} (f : α → α → Bool) :
    ∀ (l acc : List α), (acc ++ l).Pairwise (fun a b => f a b = false) →
      l.foldl (fun acc u => if acc.any (fun v => f v u) then acc else acc ++ [u]) acc = acc ++ l := by
  intro l
  induction l with
  | nil => intro acc _; simp
  | cons u t ih =>
    intro acc h
    have hfu : ∀ v ∈ acc, f v u = false := by
      intro v hv
      have := (List.pairwise_append.mp h).2.2 v hv u (by simp)
      exact this
    have hb : ¬acc.any (fun v => f v u) = true := by
      rw [List.any_eq_false.mpr (by intro v hv; simp [hfu v hv])]
      simp
    simp only [List.foldl_cons]
    rw [if_neg hb]
    have h' : ((acc ++ [u]) ++ t).Pairwise (fun a b => f a b = false) := by
      simpa [List.append_assoc] using h
    have := ih (acc ++ [u]) h'
    simpa [List.append_assoc] using this

theorem remove_duplicate_usages_pairwise (l : List Usage) :
    (remove_duplicate_usages l).Pairwise (fun a b => sameUsage a b = false) :=
  dedupFold_pairwise sameUsage l [] (by simp)

theorem remove_duplicate_usages_subset {l : List Usage} {x : Usage}
    (h : x ∈ remove_duplicate_usages l) : x ∈ l := by
  rcases dedupFold_subset sameUsage l [] x h with h' | h'
  · simp at h'
  · exact h'

theorem remove_duplicate_usages_eq_self {l : List Usage}
    (h : l.Pairwise (fun a b => sameUsage a b = false)) :
    remove_duplicate_usages l = l := by
  have h0 : (([] : List Usage) ++ l).Pairwise (fun a b => sameUsage a b = false) := by
    rw [List.nil_append]; exact h
  have h1 := dedupFold_of_pairwise sameUsage l [] h0
  rw [List.nil_append] at h1
  exact h1

theorem remove_duplicate_usages_idem (l : List Usage) :
    remove_duplicate_usages (remove_duplicate_usages l) = remove_duplicate_usages l :=
  remove_duplicate_usages_eq_self (remove_duplicate_usages_pairwise l)

theorem remove_duplicate_pesticides_subset {l : List Card} {x : Card}
    (h : x ∈ remove_duplicate_pesticides l) : x ∈ l := by
  rcases dedupFold_subset (fun q p => cardKey q == cardKey p) l [] x h with h' | h'
  · simp at h'
  · exact h'

/-! ### Substring lemmas -/

theorem prefB_self_append : ∀ (n s : List Char), prefB n (n ++ s) = true := by
  intro n
  induction n with
  | nil => intro s; rfl
  | cons c cs ih => intro s; simp [prefB, ih]

theorem subB_of_prefB {n h : List Char} (hp : prefB n h = true) : subB n h = true := by
  cases h with
  | nil => simpa [subB] using hp
  | cons c hs => simp [subB, hp]

theorem subB_parts : ∀ (pre n suf : List Char), subB n (pre ++ (n ++ suf)) = true := by
  intro pre
  induction pre with
  | nil =>
    intro n suf
    exact subB_of_prefB (prefB_self_append n suf)
  | cons c cs ih =>
    intro n suf
    have hstep : subB n ((c :: cs) ++ (n ++ suf)) =
        (prefB n ((c :: cs) ++ (n ++ suf)) || subB n (cs ++ (n ++ suf))) := rfl
    rw [hstep, ih n suf, Bool.or_true]

theorem substrB_parts (a pre suf : String) : substrB a (pre ++ a ++ suf) = true := by
  unfold substrB
  rw [String.data_append, String.data_append, List.append_assoc]
  exact subB_parts pre.data a.data suf.data

/-! ### Character-level lemmas for the normalizer -/

theorem char_toNat_ofNat (n : Nat) (h : n < 0xD800) : (Char.ofNat n).toNat = n := by
  unfold Char.ofNat
  split
  · simp [Char.ofNatAux, Char.toNat, UInt32.toNat, BitVec.toNat_ofNatLt]
  · rename_i hv
    exact absurd (Or.inl h) hv

theorem char_eq_iff_toNat {a b : Char} : a = b ↔ a.toNat = b.toNat :=
  ⟨fun h => congrArg Char.toNat h, fun h => Char.eq_of_val_eq (UInt32.ext h)⟩

theorem toLower_eq_ite (c : Char) :
    Char.toLower c = if c.toNat ≥ 65 ∧ c.toNat ≤ 90 then Char.ofNat (c.toNat + 32) else c := rfl

theorem toLower_of_not_upper {c : Char} (h : ¬(65 ≤ c.toNat ∧ c.toNat ≤ 90)) :
    Char.toLower c = c := by
  rw [toLower_eq_ite, if_neg h]

theorem toLower_toNat_of_upper {c : Char} (h : 65 ≤ c.toNat ∧ c.toNat ≤ 90) :
    (Char.toLower c).toNat = c.toNat + 32 := by
  rw [toLower_eq_ite, if_pos h]
  exact char_toNat_ofNat _ (by omega)

/-- A printable non-uppercase ASCII character is a fixed point of every
stage of the normalization pipeline. -/
theorem asciiKeep_fixed {x : Char} (h1 : 0x21 ≤ x.toNat) (h2 : x.toNat ≤ 0x7E)
    (h3 : ¬(65 ≤ x.toNat ∧ x.toNat ≤ 90)) :
    nfkcChar x = x ∧ (!(x == ' ' || x == '　')) = true ∧ Char.toLower x = x := by
  have hne1 : x ≠ ' ' := by
    intro he
    have : x.toNat = 32 := by rw [he]; decide
    omega
  have hne2 : x ≠ '　' := by
    intro he
    have : x.toNat = 0x3000 := by rw [he]; decide
    omega
  refine ⟨?_, ?_, toLower_of_not_upper h3⟩
  · unfold nfkcChar
    rw [if_neg (by omega), if_neg hne2]
  · simp [hne1, hne2]

/-- Every character surviving the keep-filter after NFKC folding is, once
lowercased, a fixed point of the whole pipeline. -/
theorem normPipe_fixed (c : Char)
    (hkeep : (!(nfkcChar c == ' ' || nfkcChar c == '　')) = true) :
    nfkcChar (Char.toLower (nfkcChar c)) = Char.toLower (nfkcChar c) ∧
    (!(Char.toLower (nfkcChar c) == ' ' || Char.toLower (nfkcChar c) == '　')) = true ∧
    Char.toLower (Char.toLower (nfkcChar c)) = Char.toLower (nfkcChar c) := by
  have hkeep' : nfkcChar c ≠ ' ' ∧ nfkcChar c ≠ '　' := by
    constructor <;> intro he <;> rw [he] at hkeep <;> exact absurd hkeep (by decide)
  by_cases h1 : 0xFF01 ≤ c.toNat ∧ c.toNat ≤ 0xFF5E
  · have hy : nfkcChar c = Char.ofNat (c.toNat - 0xFEE0) := by
      unfold nfkcChar; rw [if_pos h1]
    have hyN : (nfkcChar c).toNat = c.toNat - 0xFEE0 := by
      rw [hy]; exact char_toNat_ofNat _ (by omega)
    by_cases hu : 65 ≤ (nfkcChar c).toNat ∧ (nfkcChar c).toNat ≤ 90
    · have hxN : (Char.toLower (nfkcChar c)).toNat = (nfkcChar c).toNat + 32 :=
        toLower_toNat_of_upper hu
      exact asciiKeep_fixed (by omega) (by omega) (by omega)
    · have hx : Char.toLower (nfkcChar c) = nfkcChar c := toLower_of_not_upper hu
      rw [hx]
      exact asciiKeep_fixed (by omega) (by omega) hu
  · by_cases h2 : c = '　'
    · exfalso
      apply hkeep'.1
      unfold nfkcChar
      rw [if_neg h1, if_pos h2]
    · have hy : nfkcChar c = c := by unfold nfkcChar; rw [if_neg h1, if_neg h2]
      by_cases hu : 65 ≤ c.toNat ∧ c.toNat ≤ 90
      · have hxN : (Char.toLower c).toNat = c.toNat + 32 := toLower_toNat_of_upper hu
        rw [hy]
        exact asciiKeep_fixed (by omega) (by omega) (by omega)
      · rw [hy, toLower_of_not_upper hu]
        refine ⟨hy, ?_, toLower_of_not_upper hu⟩
        rw [hy] at hkeep
        exact hkeep

theorem normalizeChars_idem (cs : List Char) :
    normalizeChars (normalizeChars cs) = normalizeChars cs := by
  have hmem : ∀ x ∈ normalizeChars cs,
      nfkcChar x = x ∧ (!(x == ' ' || x == '　')) = true ∧ Char.toLower x = x := by
    intro x hx
    unfold normalizeChars at hx
    rcases List.mem_map.mp hx with ⟨y, hy, hxy⟩
    rcases List.mem_filter.mp hy with ⟨hy1, hkeep⟩
    rcases List.mem_map.mp hy1 with ⟨c, _, hyc⟩
    subst hxy
    subst hyc
    exact normPipe_fixed c hkeep
  have h1 : (normalizeChars cs).map nfkcChar = normalizeChars cs := by
    have := List.map_congr_left (l := normalizeChars cs) (f := nfkcChar) (g := id)
      (fun x hx => (hmem x hx).1)
    simpa using this
  have h2 : (normalizeChars cs).filter (fun c => !(c == ' ' || c == '　')) = normalizeChars cs :=
    List.filter_eq_self.mpr (fun x hx => (hmem x hx).2.1)
  have h3 : (normalizeChars cs).map Char.toLower = normalizeChars cs := by
    have := List.map_congr_left (l := normalizeChars cs) (f := Char.toLower) (g := id)
      (fun x hx => (hmem x hx).2.2)
    simpa using this
  calc normalizeChars (normalizeChars cs)
      = (((normalizeChars cs).map nfkcChar).filter
          (fun c => !(c == ' ' || c == '　'))).map Char.toLower := rfl
    _ = ((normalizeChars cs).filter (fun c => !(c == ' ' || c == '　'))).map Char.toLower := by
        rw [h1]
    _ = (normalizeChars cs).map Char.toLower := by rw [h2]
    _ = normalizeChars cs := h3

theorem normalize_pest_name_ne (s : String) (h : s ≠ "") :
    normalize_pest_name s = String.mk (normalizeChars s.data) := by
  unfold normalize_pest_name; rw [if_neg h]

theorem normalize_pest_name_idem_aux (s : String) :
    normalize_pest_name (normalize_pest_name s) = normalize_pest_name s := by
  by_cases h : s = ""
  · subst h; rfl
  · rw [normalize_pest_name_ne s h]
    by_cases ht : String.mk (normalizeChars s.data) = ""
    · rw [ht]; rfl
    · rw [normalize_pest_name_ne _ ht]
      rw [show (String.mk (normalizeChars s.data)).data = normalizeChars s.data from rfl]
      rw [normalizeChars_idem]

/-! ### Order properties of the ranking comparator -/

theorem optDaysLe_total (x y : Option Nat) : optDaysLe x y = true ∨ optDaysLe y x = true := by
  cases x <;> cases y <;> simp [optDaysLe]
  omega

theorem optDaysLe_trans {x y z : Option Nat} (h1 : optDaysLe x y = true)
    (h2 : optDaysLe y z = true) : optDaysLe x z = true := by
  cases x <;> cases y <;> cases z <;> simp_all [optDaysLe]
  omega

instance : IsTotal Card cardLE := ⟨fun a b => by
  unfold cardLE keyLe
  by_cases hf : flagKey a = flagKey b
  · rw [if_pos hf, if_pos hf.symm]
    exact optDaysLe_total _ _
  · rw [if_neg hf, if_neg (Ne.symm hf)]
    rcases lt_or_gt_of_ne hf with h | h
    · exact Or.inl (decide_eq_true h)
    · exact Or.inr (decide_eq_true h)⟩

instance : IsTrans Card cardLE := ⟨fun a b c hab hbc => by
  unfold cardLE keyLe at *
  by_cases hab' : flagKey a = flagKey b <;> by_cases hbc' : flagKey b = flagKey c
  · rw [if_pos hab'] at hab
    rw [if_pos hbc'] at hbc
    rw [if_pos (hab'.trans hbc')]
    exact optDaysLe_trans hab hbc
  · rw [if_neg (show flagKey a ≠ flagKey c by rw [hab']; exact hbc')]
    rw [if_neg hbc'] at hbc
    rw [hab']
    exact hbc
  · rw [if_neg hab'] at hab
    rw [if_neg (show flagKey a ≠ flagKey c by rw [← hbc']; exact hab')]
    rw [← hbc']
    exact hab
  · rw [if_neg hab'] at hab
    rw [if_neg hbc'] at hbc
    have h1 : flagKey a < flagKey b := of_decide_eq_true hab
    have h2 : flagKey b < flagKey c := of_decide_eq_true hbc
    rw [if_neg (show flagKey a ≠ flagKey c by omega)]
    exact decide_eq_true (show flagKey a < flagKey c by omega)⟩

theorem mem_dedup_sort {c : Card} {l : List Card} (a b d : List String) :
    c ∈ deduplicate_and_sort_results l a b d ↔ c ∈ l :=
  (List.perm_insertionSort cardLE l).mem_iff

theorem orderedInsert_congr {α : Type} (p q : α → α → Prop) [DecidableRel p] [DecidableRel q]
    (a : α) : ∀ (l : List α), (∀ b ∈ l, (p a b ↔ q a b)) →
    List.orderedInsert p a l = List.orderedInsert q a l := by
  intro l
  induction l with
  | nil => intro _; rfl
  | cons b t ih =>
    intro h
    simp only [List.orderedInsert]
    by_cases hp : p a b
    · rw [if_pos hp, if_pos ((h b (by simp)).mp hp)]
    · rw [if_neg hp, if_neg (fun hq => hp ((h b (by simp)).mpr hq))]
      rw [ih (fun x hx => h x (by simp [hx]))]

theorem insertionSort_congr {α : Type} (p q : α → α → Prop) [DecidableRel p] [DecidableRel q] :
    ∀ (l : List α), (∀ a ∈ l, ∀ b ∈ l, (p a b ↔ q a b)) →
    List.insertionSort p l = List.insertionSort q l := by
  intro l
  induction l with
  | nil => intro _; rfl
  | cons a t ih =>
    intro h
    simp only [List.insertionSort]
    rw [ih (fun x hx y hy => h x (by simp [hx]) y (by simp [hy]))]
    apply orderedInsert_congr
    intro b hb
    have hbt : b ∈ t := (List.perm_insertionSort q t).mem_iff.mp hb
    exact h a (by simp) b (by simp [hbt])

/-! ### Invariant lemmas for the shared grouping shape -/

theorem foldl_preserve {α β : Type} {P : β → Prop} (step : β → α → β)
    (h : ∀ st x, P st → P (step st x)) :
    ∀ (l : List α) (st : β), P st → P (l.foldl step st) := by
  intro l
  induction l with
  | nil => intro st hst; exact hst
  | cons x t ih => intro st hst; exact ih _ (h st x hst)

theorem addRowToMap_pred {P : Card → Prop} {mk : Row → Card}
    (hstab : ∀ c us, P c → P { c with usages := us })
    {m : List (String × Card)} {r : Row}
    (hm : ∀ e ∈ m, P e.2) (hmk : P (mk r)) :
    ∀ e ∈ addRowToMap mk m r, P e.2 := by
  intro e he
  unfold addRowToMap at he
  rcases List.mem_map.mp he with ⟨e0, he0, hee⟩
  have he0P : P e0.2 := by
    by_cases hany : m.any (fun x => x.1 == rowKey r) = true
    · rw [if_pos hany] at he0
      exact hm e0 he0
    · rw [if_neg hany] at he0
      rcases List.mem_append.mp he0 with h' | h'
      · exact hm e0 h'
      · rw [List.mem_singleton.mp h']
        exact hmk
  subst hee
  by_cases hk : e0.1 == rowKey r
  · rw [if_pos hk]
    exact hstab _ _ he0P
  · rw [if_neg hk]
    exact he0P

theorem foldl_addRow_pred {P : Card → Prop} {mk : Row → Card}
    (hstab : ∀ c us, P c → P { c with usages := us }) :
    ∀ (rows : List Row) (m : List (String × Card)),
      (∀ e ∈ m, P e.2) → (∀ r ∈ rows, P (mk r)) →
      ∀ e ∈ rows.foldl (addRowToMap mk) m, P e.2 := by
  intro rows
  induction rows with
  | nil => intro m hm _ e he; exact hm e he
  | cons r t ih =>
    intro m hm hmk e he
    simp only [List.foldl_cons] at he
    exact ih (addRowToMap mk m r)
      (addRowToMap_pred hstab hm (hmk r (by simp)))
      (fun r' hr' => hmk r' (by simp [hr'])) e he

theorem groupRows_pred {P : Card → Prop} {mk : Row → Card}
    (hstab : ∀ c us, P c → P { c with usages := us })
    {rows : List Row} (hmk : ∀ r ∈ rows, P (mk r)) :
    ∀ c ∈ groupRows mk rows, P c := by
  intro c hc
  unfold groupRows at hc
  rcases List.mem_map.mp hc with ⟨e, he, rfl⟩
  exact hstab _ _ (foldl_addRow_pred hstab rows [] (by simp) hmk e he)

theorem addRowToMap_usages {Q : Usage → Prop} {mk : Row → Card}
    (hmk0 : ∀ r, (mk r).usages = [])
    {m : List (String × Card)} {r : Row}
    (hm : ∀ e ∈ m, ∀ u ∈ e.2.usages, Q u) (hq : Q (mkUsage r)) :
    ∀ e ∈ addRowToMap mk m r, ∀ u ∈ e.2.usages, Q u := by
  intro e he
  unfold addRowToMap at he
  rcases List.mem_map.mp he with ⟨e0, he0, hee⟩
  have he0Q : ∀ u ∈ e0.2.usages, Q u := by
    by_cases hany : m.any (fun x => x.1 == rowKey r) = true
    · rw [if_pos hany] at he0
      exact hm e0 he0
    · rw [if_neg hany] at he0
      rcases List.mem_append.mp he0 with h' | h'
      · exact hm e0 h'
      · rw [List.mem_singleton.mp h']
        intro u hu
        rw [hmk0 r] at hu
        simp at hu
  subst hee
  by_cases hk : e0.1 == rowKey r
  · rw [if_pos hk]
    intro u hu
    rcases List.mem_append.mp hu with h' | h'
    · exact he0Q u h'
    · rw [List.mem_singleton.mp h']
      exact hq
  · rw [if_neg hk]
    exact he0Q

theorem foldl_addRow_usages {Q : Usage → Prop} {mk : Row → Card}
    (hmk0 : ∀ r, (mk r).usages = []) :
    ∀ (rows : List Row) (m : List (String × Card)),
      (∀ e ∈ m, ∀ u ∈ e.2.usages, Q u) → (∀ r ∈ rows, Q (mkUsage r)) →
      ∀ e ∈ rows.foldl (addRowToMap mk) m, ∀ u ∈ e.2.usages, Q u := by
  intro rows
  induction rows with
  | nil => intro m hm _ e he; exact hm e he
  | cons r t ih =>
    intro m hm hq e he
    simp only [List.foldl_cons] at he
    exact ih (addRowToMap mk m r)
      (addRowToMap_usages hmk0 hm (hq r (by simp)))
      (fun r' hr' => hq r' (by simp [hr'])) e he

theorem groupRows_usages {Q : Usage → Prop} {mk : Row → Card}
    (hmk0 : ∀ r, (mk r).usages = [])
    {rows : List Row} (hq : ∀ r ∈ rows, Q (mkUsage r)) :
    ∀ c ∈ groupRows mk rows, ∀ u ∈ c.usages, Q u := by
  intro c hc u hu
  unfold groupRows at hc
  rcases List.mem_map.mp hc with ⟨e, he, rfl⟩
  exact foldl_addRow_usages hmk0 rows [] (by simp) hq e he u
    (remove_duplicate_usages_subset hu)

theorem groupRows_usages_pairwise {mk : Row → Card} {rows : List Row} :
    ∀ c ∈ groupRows mk rows, c.usages.Pairwise (fun a b => sameUsage a b = false) := by
  intro c hc
  unfold groupRows at hc
  rcases List.mem_map.mp hc with ⟨e, _, rfl⟩
  exact remove_duplicate_usages_pairwise _

/-! ### Per-handler predicate preservation -/

theorem string_data_inj {s t : String} (h : s.data = t.data) : s = t := by
  cases s; cases t; simp_all

theorem perCropIntersection_pred {P : Card → Prop}
    (hstab : ∀ c us, P c → P { c with usages := us })
    {db : List Row} {pests : List String} {crop : String}
    (hnm : P (interNoMatch crop pests))
    (hmk : ∀ r, P (mkInterCard crop pests r)) :
    ∀ c ∈ perCropIntersection db pests crop, P c := by
  intro c hc
  unfold perCropIntersection at hc
  by_cases hemp : interTriples db crop pests = []
  · rw [if_pos hemp] at hc
    rw [List.mem_singleton.mp hc]
    exact hnm
  · rw [if_neg hemp] at hc
    rcases List.mem_map.mp hc with ⟨p, hp, rfl⟩
    have hp' := remove_duplicate_pesticides_subset (List.mem_filter.mp hp).1
    rcases List.mem_map.mp hp' with ⟨r, _, rfl⟩
    exact hstab _ _ (hmk r)

theorem handle_inter_pred {P : Card → Prop}
    (hstab : ∀ c us, P c → P { c with usages := us })
    {db : List Row} {crops pests : List String}
    (hnm : ∀ crop, P (interNoMatch crop pests))
    (hmk : ∀ crop r, P (mkInterCard crop pests r)) :
    ∀ c ∈ handle_crop_pests_intersection db crops pests, P c := by
  intro c hc
  unfold handle_crop_pests_intersection at hc
  rcases List.mem_flatMap.mp hc with ⟨crop, _, hc'⟩
  exact perCropIntersection_pred hstab (hnm crop) (hmk crop) c hc'

theorem singlePestPerCrop_pred {P : Card → Prop}
    (hstab : ∀ c us, P c → P { c with usages := us })
    {db : List Row} {pest crop : String}
    (hnm : P (singlePestNoMatch crop pest))
    (hmk : ∀ r, P (mkSinglePestCard crop pest r)) :
    ∀ c ∈ singlePestPerCrop db pest crop, P c := by
  intro c hc
  unfold singlePestPerCrop at hc
  by_cases hemp : rowsCropPestLike db crop pest = []
  · rw [if_pos hemp] at hc
    rw [List.mem_singleton.mp hc]
    exact hnm
  · rw [if_neg hemp] at hc
    exact groupRows_pred hstab (fun r _ => hmk r) c hc

theorem handle_single_pred {P : Card → Prop}
    (hstab : ∀ c us, P c → P { c with usages := us })
    {db : List Row} {crops : List String} {pest : String}
    (hnm : ∀ crop, P (singlePestNoMatch crop pest))
    (hmk : ∀ crop r, P (mkSinglePestCard crop pest r)) :
    ∀ c ∈ handle_crop_single_pest db crops pest, P c := by
  intro c hc
  unfold handle_crop_single_pest at hc
  rcases List.mem_flatMap.mp hc with ⟨crop, _, hc'⟩
  exact singlePestPerCrop_pred hstab (hnm crop) (hmk crop) c hc'

theorem resolveMixedKw_sub {db : List Row} {chems brands barcodes : List String} {crop kw : String}
    {t : String} {rows : List Row}
    (h : resolveMixedKw db chems brands barcodes crop kw = some (t, rows)) :
    ∀ r ∈ rows, r ∈ db := by
  unfold resolveMixedKw at h
  by_cases h1 : kw ∈ chems
  · rw [if_pos h1] at h
    injection h with h'
    injection h' with ht hr'
    subst hr'
    intro r hr
    exact (List.mem_filter.mp hr).1
  · rw [if_neg h1] at h
    by_cases h2 : kw ∈ brands
    · rw [if_pos h2] at h
      injection h with h'
      injection h' with ht hr'
      subst hr'
      intro r hr
      exact (List.mem_filter.mp hr).1
    · rw [if_neg h2] at h
      by_cases h3 : kw ∈ barcodes
      · rw [if_pos h3] at h
        injection h with h'
        injection h' with ht hr'
        subst hr'
        intro r hr
        exact (List.mem_filter.mp hr).1
      · rw [if_neg h3] at h
        simp at h

theorem mixedStep_pred {P : Card → Prop} {db : List Row}
    {chems brands barcodes : List String} {crop : String}
    (hnm : ∀ kw t, P (mixedNoMatchCard db crop kw t))
    (hgroup : ∀ kw t (rows : List Row), (∀ r ∈ rows, r ∈ db) →
      ∀ c ∈ groupRows (mkMixedCard crop kw t) rows, P c) :
    ∀ st kw, (∀ c ∈ st.1, P c) →
      ∀ c ∈ (mixedStep db chems brands barcodes crop st kw).1, P c := by
  intro st kw hst c hc
  unfold mixedStep at hc
  cases hres : resolveMixedKw db chems brands barcodes crop kw with
  | none => rw [hres] at hc; exact hst c hc
  | some pr =>
    obtain ⟨t, rows⟩ := pr
    rw [hres] at hc
    dsimp only at hc
    have hsub : ∀ r ∈ rows, r ∈ db := resolveMixedKw_sub hres
    by_cases hrows : rows = []
    · rw [if_pos hrows] at hc
      rcases List.mem_cons.mp hc with rfl | h'
      · exact hnm kw t
      · exact hst c h'
    · rw [if_neg hrows] at hc
      rcases List.mem_append.mp hc with h' | h'
      · exact hst c h'
      · exact hgroup kw t rows hsub c h'

theorem mixedPhase1_pred {P : Card → Prop} {db : List Row} (chems brands barcodes : List String)
    (hnm : ∀ crop kw t, P (mixedNoMatchCard db crop kw t))
    (hgroup : ∀ crop kw t (rows : List Row), (∀ r ∈ rows, r ∈ db) →
      ∀ c ∈ groupRows (mkMixedCard crop kw t) rows, P c)
    (crops kws : List String) :
    ∀ c ∈ (mixedPhase1 db chems brands barcodes crops kws).1, P c := by
  unfold mixedPhase1
  exact foldl_preserve (P := fun st => ∀ c ∈ st.1, P c)
    (fun st crop => kws.foldl (mixedStep db chems brands barcodes crop) st)
    (fun st crop hst => foldl_preserve (P := fun st => ∀ c ∈ st.1, P c)
      (mixedStep db chems brands barcodes crop)
      (fun st' kw hst' => mixedStep_pred (hnm crop) (hgroup crop) st' kw hst') kws st hst)
    crops ([], []) (by simp)

theorem handle_crop_mixed_pred {P Q : Card → Prop} {db : List Row}
    {crops kws chems brands barcodes : List String}
    (hnm : ∀ crop kw t, P (mixedNoMatchCard db crop kw t))
    (hgroup : ∀ crop kw t (rows : List Row), (∀ r ∈ rows, r ∈ db) →
      ∀ c ∈ groupRows (mkMixedCard crop kw t) rows, P c)
    (hno : Q (noOverlapCard crops kws))
    (hmark : ∀ c, P c → Q (markCard (mixedDup db chems brands barcodes crops kws) c)) :
    ∀ c ∈ handle_crop_mixed_keywords db crops kws chems brands barcodes, Q c := by
  intro c hc
  unfold handle_crop_mixed_keywords at hc
  have hphase := mixedPhase1_pred chems brands barcodes hnm hgroup crops kws
  by_cases hcond : markedCount (mixedDup db chems brands barcodes crops kws)
      (mixedPhase1 db chems brands barcodes crops kws).1 = 0 ∧ kws.length ≥ 2
  · rw [if_pos hcond] at hc
    rcases List.mem_cons.mp hc with rfl | hc'
    · exact hno
    · rcases List.mem_map.mp hc' with ⟨c0, hc0, rfl⟩
      exact hmark c0 (hphase c0 hc0)
  · rw [if_neg hcond] at hc
    rcases List.mem_map.mp hc with ⟨c0, hc0, rfl⟩
    exact hmark c0 (hphase c0 hc0)

theorem handle_crop_only_pred {P : Card → Prop}
    (hstab : ∀ c us, P c → P { c with usages := us })
    {db : List Row} (hmk : ∀ r, P (mkPlainCard r)) :
    ∀ (crops : List String), ∀ c ∈ handle_crop_only db crops, P c := by
  intro crops c hc
  unfold handle_crop_only at hc
  rcases List.mem_flatMap.mp hc with ⟨crop, _, hc'⟩
  exact groupRows_pred hstab (fun r _ => hmk r) c hc'

theorem handle_chem_only_pred {P : Card → Prop}
    (hstab : ∀ c us, P c → P { c with usages := us })
    {db : List Row} (hmk : ∀ r, P (mkChemCard r)) :
    ∀ (chems : List String), ∀ c ∈ handle_chem_only db chems, P c := by
  intro chems c hc
  unfold handle_chem_only at hc
  rcases List.mem_flatMap.mp hc with ⟨chem, _, hc'⟩
  exact groupRows_pred hstab (fun r _ => hmk r) c hc'

theorem handle_brand_only_pred {P : Card → Prop}
    (hstab : ∀ c us, P c → P { c with usages := us })
    {db : List Row} (hmk : ∀ r, P (mkBrandCard r)) :
    ∀ (brands : List String), ∀ c ∈ handle_brand_only db brands, P c := by
  intro brands c hc
  unfold handle_brand_only at hc
  rcases List.mem_flatMap.mp hc with ⟨brand, _, hc'⟩
  exact groupRows_pred hstab (fun r _ => hmk r) c hc'

theorem handle_barcode_only_pred {P : Card → Prop}
    (hstab : ∀ c us, P c → P { c with usages := us })
    {db : List Row} (hmk : ∀ r, P (mkBarcodeCard r)) :
    ∀ (barcodes : List String), ∀ c ∈ handle_barcode_only db barcodes, P c := by
  intro barcodes c hc
  unfold handle_barcode_only at hc
  rcases List.mem_flatMap.mp hc with ⟨barcode, _, hc'⟩
  exact groupRows_pred hstab (fun r _ => hmk r) c hc'

theorem handle_fallback_pred {P : Card → Prop}
    (hstab : ∀ c us, P c → P { c with usages := us })
    {db : List Row} (hmk : ∀ r, P (mkPlainCard r)) :
    ∀ (others : List String), ∀ c ∈ handle_fallback_partial_match db others, P c := by
  intro others c hc
  unfold handle_fallback_partial_match at hc
  rcases List.mem_flatMap.mp hc with ⟨kw, _, hc'⟩
  exact groupRows_pred hstab (fun r _ => hmk r) c hc'

theorem searchResults_pred {P : Card → Prop} {db : List Row}
    (hstab : ∀ c us, P c → P { c with usages := us })
    (hinm : ∀ crop pests, P (interNoMatch crop pests))
    (himk : ∀ crop pests r, P (mkInterCard crop pests r))
    (hsnm : ∀ crop pest, P (singlePestNoMatch crop pest))
    (hsmk : ∀ crop pest r, P (mkSinglePestCard crop pest r))
    (hmnm : ∀ crop kw t, P (mixedNoMatchCard db crop kw t))
    (hmmk : ∀ crop kw t r, P (mkMixedCard crop kw t r))
    (hno : ∀ crops kws, P (noOverlapCard crops kws))
    (hplain : ∀ r, P (mkPlainCard r))
    (hchem : ∀ r, P (mkChemCard r))
    (hbrand : ∀ r, P (mkBrandCard r))
    (hbarcode : ∀ r, P (mkBarcodeCard r))
    (kws : List String) :
    ∀ c ∈ searchResults db kws, P c := by
  intro c hc
  unfold searchResults at hc
  simp only [List.mem_append] at hc
  have hmarkQ : ∀ dup c, P c → P (markCard dup c) := by
    intro dup c' hc'
    unfold markCard
    by_cases hn : c'.noMatch
    · rw [if_pos hn]; exact hc'
    · rw [if_neg hn]; exact hstab _ _ hc'
  rcases hc with ((((((h' | h') | h') | h') | h') | h') | h') | h'
  · split at h'
    · exact handle_inter_pred hstab (fun crop => hinm crop _) (fun crop r => himk crop _ r) c h'
    · simp at h'
  · split at h'
    · exact handle_single_pred hstab (fun crop => hsnm crop _) (fun crop r => hsmk crop _ r) c h'
    · simp at h'
  · split at h'
    · exact handle_crop_mixed_pred hmnm
        (fun crop kw t rows _ => groupRows_pred hstab (fun r _ => hmmk crop kw t r))
        (hno _ _) (fun c0 hc0 => hmarkQ _ c0 hc0) c h'
    · simp at h'
  · split at h'
    · exact handle_crop_only_pred hstab hplain _ c h'
    · simp at h'
  · split at h'
    · exact handle_chem_only_pred hstab hchem _ c h'
    · simp at h'
  · split at h'
    · exact handle_brand_only_pred hstab hbrand _ c h'
    · simp at h'
  · split at h'
    · exact handle_barcode_only_pred hstab hbarcode _ c h'
    · simp at h'
  · split at h'
    · exact handle_fallback_pred hstab hplain _ c h'
    · simp at h'

/-! ### Marker rewriting lemmas -/

theorem markUsage_pestName (dup : List String) (u : Usage) :
    (markUsage dup u).pestName =
      if u.pestName ∈ dup then "#" ++ u.pestName else u.pestName := by
  unfold markUsage
  by_cases h : u.pestName ∈ dup
  · rw [if_pos h, if_pos h]
  · rw [if_neg h, if_neg h]

theorem markUsage_fields (dup : List String) (u : Usage) :
    (markUsage dup u).harvest = u.harvest ∧ (markUsage dup u).dilution = u.dilution ∧
    (markUsage dup u).dosage = u.dosage ∧
    (markUsage dup u).pestNameNormalized = u.pestNameNormalized ∧
    (markUsage dup u).crop = u.crop := by
  unfold markUsage
  by_cases h : u.pestName ∈ dup
  · rw [if_pos h]; exact ⟨rfl, rfl, rfl, rfl, rfl⟩
  · rw [if_neg h]; exact ⟨rfl, rfl, rfl, rfl, rfl⟩

theorem hash_data (s : String) : ("#" ++ s).data = '#' :: s.data := by
  rw [String.data_append]; rfl

theorem markName_inj {dup : List String} {n1 n2 : String}
    (h1 : n1.data.head? ≠ some '#') (h2 : n2.data.head? ≠ some '#')
    (hne : n1 ≠ n2) :
    (if n1 ∈ dup then "#" ++ n1 else n1) ≠ (if n2 ∈ dup then "#" ++ n2 else n2) := by
  by_cases m1 : n1 ∈ dup <;> by_cases m2 : n2 ∈ dup
  · rw [if_pos m1, if_pos m2]
    intro he
    apply hne
    apply string_data_inj
    have hcons : ('#' :: n1.data) = '#' :: n2.data := by
      rw [← hash_data, ← hash_data, he]
    injection hcons
  · rw [if_pos m1, if_neg m2]
    intro he
    apply h2
    rw [← he, hash_data]
    rfl
  · rw [if_neg m1, if_pos m2]
    intro he
    apply h1
    rw [he, hash_data]
    rfl
  · rw [if_neg m1, if_neg m2]
    exact hne

theorem mark_preserves_pairwise {dup : List String} {us : List Usage}
    (horig : ∀ u ∈ us, u.pestName.data.head? ≠ some '#')
    (hpw : us.Pairwise (fun a b => sameUsage a b = false)) :
    (us.map (markUsage dup)).Pairwise (fun a b => sameUsage a b = false) := by
  rw [List.pairwise_map]
  refine List.Pairwise.imp_of_mem ?_ hpw
  intro a b ha hb hr
  cases hsm : sameUsage (markUsage dup a) (markUsage dup b) with
  | false => rfl
  | true =>
    exfalso
    have hsm' := hsm
    unfold sameUsage at hsm'
    simp only [Bool.and_eq_true, beq_iff_eq] at hsm'
    obtain ⟨⟨⟨hp, hh⟩, hdil⟩, hdos⟩ := hsm'
    rw [(markUsage_fields dup a).1, (markUsage_fields dup b).1] at hh
    rw [(markUsage_fields dup a).2.1, (markUsage_fields dup b).2.1] at hdil
    rw [(markUsage_fields dup a).2.2.1, (markUsage_fields dup b).2.2.1] at hdos
    rw [markUsage_pestName, markUsage_pestName] at hp
    have hne : a.pestName ≠ b.pestName := by
      intro he
      have hsame : sameUsage a b = true := by
        unfold sameUsage
        simp [he, hh, hdil, hdos]
      rw [hr] at hsame
      exact Bool.false_ne_true hsame
    exact markName_inj (horig a ha) (horig b hb) hne hp

/-! ### Usage-list invariants through each handler -/

theorem mixed_usages_pairwise {db : List Row} (chems brands barcodes : List String)
    (Hdb : ∀ r ∈ db, r.pest.data.head? ≠ some '#') (crops kws : List String) :
    ∀ c ∈ handle_crop_mixed_keywords db crops kws chems brands barcodes,
      c.usages.Pairwise (fun a b => sameUsage a b = false) := by
  refine handle_crop_mixed_pred
    (P := fun c => c.usages.Pairwise (fun a b => sameUsage a b = false) ∧
      ∀ u ∈ c.usages, u.pestName.data.head? ≠ some '#') ?_ ?_ ?_ ?_
  · intro crop kw t
    have husg : (mixedNoMatchCard db crop kw t).usages = [] := rfl
    constructor
    · rw [husg]; exact List.Pairwise.nil
    · intro u hu; rw [husg] at hu; cases hu
  · intro crop kw t rows hsub c hc
    constructor
    · exact groupRows_usages_pairwise c hc
    · intro u hu
      refine groupRows_usages (Q := fun u => u.pestName.data.head? ≠ some '#')
        (fun r => rfl) ?_ c hc u hu
      intro r hr
      exact Hdb r (hsub r hr)
  · have husg : (noOverlapCard crops kws).usages = [] := rfl
    rw [husg]
    exact List.Pairwise.nil
  · intro c hc
    unfold markCard
    by_cases hn : c.noMatch
    · rw [if_pos hn]; exact hc.1
    · rw [if_neg hn]
      exact mark_preserves_pairwise hc.2 hc.1

theorem inter_usages_pairwise {db : List Row} {crops pests : List String} :
    ∀ c ∈ handle_crop_pests_intersection db crops pests,
      c.usages.Pairwise (fun a b => sameUsage a b = false) := by
  intro c hc
  unfold handle_crop_pests_intersection at hc
  rcases List.mem_flatMap.mp hc with ⟨crop, _, hc'⟩
  unfold perCropIntersection at hc'
  by_cases hemp : interTriples db crop pests = []
  · rw [if_pos hemp] at hc'
    rw [List.mem_singleton.mp hc']
    exact List.Pairwise.nil
  · rw [if_neg hemp] at hc'
    rcases List.mem_map.mp hc' with ⟨p, _, rfl⟩
    exact remove_duplicate_usages_pairwise _

theorem single_usages_pairwise {db : List Row} {crops : List String} {pest : String} :
    ∀ c ∈ handle_crop_single_pest db crops pest,
      c.usages.Pairwise (fun a b => sameUsage a b = false) := by
  intro c hc
  unfold handle_crop_single_pest at hc
  rcases List.mem_flatMap.mp hc with ⟨crop, _, hc'⟩
  unfold singlePestPerCrop at hc'
  by_cases hemp : rowsCropPestLike db crop pest = []
  · rw [if_pos hemp] at hc'
    rw [List.mem_singleton.mp hc']
    exact List.Pairwise.nil
  · rw [if_neg hemp] at hc'
    exact groupRows_usages_pairwise c hc'

theorem flatMap_groupRows_usages_pairwise {β : Type} {mk : Row → Card} {f : β → List Row}
    {l : List β} :
    ∀ c ∈ l.flatMap (fun x => groupRows mk (f x)),
      c.usages.Pairwise (fun a b => sameUsage a b = false) := by
  intro c hc
  rcases List.mem_flatMap.mp hc with ⟨x, _, hc'⟩
  exact groupRows_usages_pairwise c hc'

theorem search_usages_pairwise {db : List Row}
    (Hdb : ∀ r ∈ db, r.pest.data.head? ≠ some '#') (q : String) :
    ∀ c ∈ search_pesticides db q,
      c.usages.Pairwise (fun a b => sameUsage a b = false) := by
  intro c hc
  unfold search_pesticides at hc
  by_cases h1 : q = ""
  · rw [if_pos h1] at hc; simp at hc
  · rw [if_neg h1] at hc
    by_cases h2 : keyword_list q = []
    · rw [if_pos h2] at hc; simp at hc
    · rw [if_neg h2] at hc
      unfold runSearch at hc
      have hc' := (mem_dedup_sort _ _ _).mp hc
      unfold searchResults at hc'
      simp only [List.mem_append] at hc'
      rcases hc' with ((((((h' | h') | h') | h') | h') | h') | h') | h'
      · split at h'
        · exact inter_usages_pairwise c h'
        · simp at h'
      · split at h'
        · exact single_usages_pairwise c h'
        · simp at h'
      · split at h'
        · exact mixed_usages_pairwise _ _ _ Hdb _ _ c h'
        · simp at h'
      · split at h'
        · exact flatMap_groupRows_usages_pairwise c h'
        · simp at h'
      · split at h'
        · exact flatMap_groupRows_usages_pairwise c h'
        · simp at h'
      · split at h'
        · exact flatMap_groupRows_usages_pairwise c h'
        · simp at h'
      · split at h'
        · exact flatMap_groupRows_usages_pairwise c h'
        · simp at h'
      · split at h'
        · exact flatMap_groupRows_usages_pairwise c h'
        · simp at h'

theorem search_pesticides_pred {P : Card → Prop} {db : List Row}
    (hstab : ∀ c us, P c → P { c with usages := us })
    (hinm : ∀ crop pests, P (interNoMatch crop pests))
    (himk : ∀ crop pests r, P (mkInterCard crop pests r))
    (hsnm : ∀ crop pest, P (singlePestNoMatch crop pest))
    (hsmk : ∀ crop pest r, P (mkSinglePestCard crop pest r))
    (hmnm : ∀ crop kw t, P (mixedNoMatchCard db crop kw t))
    (hmmk : ∀ crop kw t r, P (mkMixedCard crop kw t r))
    (hno : ∀ crops kws, P (noOverlapCard crops kws))
    (hplain : ∀ r, P (mkPlainCard r))
    (hchem : ∀ r, P (mkChemCard r))
    (hbrand : ∀ r, P (mkBrandCard r))
    (hbarcode : ∀ r, P (mkBarcodeCard r))
    (q : String) :
    ∀ c ∈ search_pesticides db q, P c := by
  intro c hc
  unfold search_pesticides at hc
  by_cases h1 : q = ""
  · rw [if_pos h1] at hc; simp at hc
  · rw [if_neg h1] at hc
    by_cases h2 : keyword_list q = []
    · rw [if_pos h2] at hc; simp at hc
    · rw [if_neg h2] at hc
      unfold runSearch at hc
      have hc' := (mem_dedup_sort _ _ _).mp hc
      exact searchResults_pred hstab hinm himk hsnm hsmk hmnm hmmk hno hplain hchem
        hbrand hbarcode (keyword_list q) c hc'

/-! ### Lemmas for the empty-input short circuit -/

theorem splitSeps_all_sep : ∀ (cs : List Char), (∀ c ∈ cs, isSep c = true) →
    ∀ t ∈ splitSeps cs, t = [] := by
  intro cs
  induction cs with
  | nil =>
    intro _ t ht
    exact List.mem_singleton.mp ht
  | cons c cs ih =>
    intro h t ht
    unfold splitSeps at ht
    rw [if_pos (h c (by simp))] at ht
    rcases List.mem_cons.mp ht with rfl | ht'
    · rfl
    · exact ih (fun x hx => h x (by simp [hx])) t ht'

theorem keyword_list_empty {q : String} (h : ∀ c ∈ q.data, isSep c = true) :
    keyword_list q = [] := by
  unfold keyword_list
  rw [List.filter_eq_nil_iff]
  intro s hs
  rcases List.mem_map.mp hs with ⟨t, ht, rfl⟩
  have ht' : t = [] := splitSeps_all_sep q.data h t ht
  subst ht'
  have hmk : (String.mk (stripChars []) = "") := rfl
  simp [hmk]

theorem search_empty_of_seps {db : List Row} {q : String}
    (h : ∀ c ∈ q.data, isSep c = true) : search_pesticides db q = [] := by
  unfold search_pesticides
  by_cases h1 : q = ""
  · rw [if_pos h1]
  · rw [if_neg h1, if_pos (keyword_list_empty h)]

/-! ### Skip-on-empty lemmas for the single-bucket strategies -/

theorem handle_crop_only_skip {db : List Row} {kw : String} (h : rowsCropEq db kw = [])
    (pre post : List String) :
    handle_crop_only db (pre ++ kw :: post) =
      handle_crop_only db pre ++ handle_crop_only db post := by
  unfold handle_crop_only
  rw [List.flatMap_append, List.flatMap_cons, h]
  rw [show groupRows mkPlainCard ([] : List Row) = ([] : List Card) from rfl, List.nil_append]

theorem handle_chem_only_skip {db : List Row} {kw : String} (h : rowsChemEq db kw = [])
    (pre post : List String) :
    handle_chem_only db (pre ++ kw :: post) =
      handle_chem_only db pre ++ handle_chem_only db post := by
  unfold handle_chem_only
  rw [List.flatMap_append, List.flatMap_cons, h]
  rw [show groupRows mkChemCard ([] : List Row) = ([] : List Card) from rfl, List.nil_append]

theorem handle_brand_only_skip {db : List Row} {kw : String} (h : rowsBrandEq db kw = [])
    (pre post : List String) :
    handle_brand_only db (pre ++ kw :: post) =
      handle_brand_only db pre ++ handle_brand_only db post := by
  unfold handle_brand_only
  rw [List.flatMap_append, List.flatMap_cons, h]
  rw [show groupRows mkBrandCard ([] : List Row) = ([] : List Card) from rfl, List.nil_append]

theorem handle_barcode_only_skip {db : List Row} {kw : String} (h : rowsBarcodeEq db kw = [])
    (pre post : List String) :
    handle_barcode_only db (pre ++ kw :: post) =
      handle_barcode_only db pre ++ handle_barcode_only db post := by
  unfold handle_barcode_only
  rw [List.flatMap_append, List.flatMap_cons, h]
  rw [show groupRows mkBarcodeCard ([] : List Row) = ([] : List Card) from rfl, List.nil_append]

theorem handle_fallback_skip {db : List Row} {kw : String} (h : rowsFuzzy db kw = [])
    (pre post : List String) :
    handle_fallback_partial_match db (pre ++ kw :: post) =
      handle_fallback_partial_match db pre ++ handle_fallback_partial_match db post := by
  unfold handle_fallback_partial_match
  rw [List.flatMap_append, List.flatMap_cons, h]
  rw [show groupRows mkPlainCard ([] : List Row) = ([] : List Card) from rfl, List.nil_append]

/-! ### The primary sort key collapses when no flag is set -/

theorem keyLe_of_flags_false {a b : Card} (ha : a.hasExactMatch = false)
    (hb : b.hasExactMatch = false) : cardLE a b ↔ daysLE a b := by
  have hfa : flagKey a = 0 := by unfold flagKey; rw [ha]; rfl
  have hfb : flagKey b = 0 := by unfold flagKey; rw [hb]; rfl
  unfold cardLE keyLe daysLE
  rw [hfa, hfb, if_pos rfl]

theorem sort_flags_false (l : List Card) (h : ∀ x ∈ l, x.hasExactMatch = false)
    (a b d : List String) :
    deduplicate_and_sort_results l a b d = List.insertionSort daysLE l := by
  unfold deduplicate_and_sort_results
  exact insertionSort_congr cardLE daysLE l
    (fun x hx y hy => keyLe_of_flags_false (h x hx) (h y hy))

/-! ### The normalized pest-name field is computed from the original name -/

theorem mixedPhase1_normalized {db : List Row} (chems brands barcodes crops kws : List String) :
    ∀ c ∈ (mixedPhase1 db chems brands barcodes crops kws).1,
      ∀ u ∈ c.usages, u.pestNameNormalized = normalize_pest_name u.pestName := by
  refine mixedPhase1_pred chems brands barcodes ?_ ?_ crops kws
  · intro crop kw t u hu
    have husg : (mixedNoMatchCard db crop kw t).usages = [] := rfl
    rw [husg] at hu
    cases hu
  · intro crop kw t rows _ c hc u hu
    exact groupRows_usages
      (Q := fun u => u.pestNameNormalized = normalize_pest_name u.pestName)
      (fun r => rfl) (fun r _ => rfl) c hc u hu

/-! ### Claim theorems -/

/-- C1: the intersection law fails on the code.  On `dbA`, pest `p`
matches no row of crop `c` while pest `q` matches one, so the
intersection of the per-pest (chemical, formulation, concentration)
triple sets is empty in both orders; the claim then requires exactly one
NoMatchCard, but the strategy returns exactly one ProductCard (and no
NoMatchCard) carrying pest `q`'s triple, because the empty running
accumulator of `all_pesticides` is reseeded by the next pest's set
instead of intersected with it. -/
theorem C1_intersection_code_eval :
    (distinctTriples dbA "c" "p").filter (fun k => k ∈ distinctTriples dbA "c" "q") = [] ∧
    (distinctTriples dbA "c" "q").filter (fun k => k ∈ distinctTriples dbA "c" "p") = [] ∧
    (handle_crop_pests_intersection dbA ["c"] ["p", "q"]).length = 1 ∧
    (handle_crop_pests_intersection dbA ["c"] ["p", "q"]).all
      (fun c => !c.noMatch && (cardKey c == "x__f__k")) = true := by
  decide

/-- C2: the final sort orders every result list by the two-part key —
primary descending exact-match flag, secondary ascending extracted
safe-harvest days with `none` as infinity — it permutes the input, and on
two flag-less cards with intervals `7天` and `14天` the `7天` card sorts
first. -/
theorem C2_ranker_sort :
    (∀ (l : List Card) (a b d : List String),
        List.Sorted cardLE (deduplicate_and_sort_results l a b d) ∧
        (deduplicate_and_sort_results l a b d).Perm l) ∧
    deduplicate_and_sort_results [card14, card7] [] [] [] = [card7, card14] ∧
    daysKey card7 = some 7 ∧ daysKey card14 = some 14 ∧
    card7.hasExactMatch = false ∧ card14.hasExactMatch = false := by
  refine ⟨fun l a b d =>
    ⟨List.sorted_insertionSort cardLE l, List.perm_insertionSort cardLE l⟩, ?_, ?_, ?_, ?_, ?_⟩
  · decide
  · decide
  · decide
  · decide
  · decide

/-- C4: a query consisting only of separator characters (commas,
full-width commas, whitespace) produces the empty result list — the
entrypoint short-circuits before any strategy runs. -/
theorem C4_empty_input (db : List Row) (q : String)
    (h : ∀ c ∈ q.data, isSep c = true) :
    search_pesticides db q = [] :=
  search_empty_of_seps h

theorem C4_witness : search_pesticides dbA " ,， " = [] :=
  C4_empty_input dbA " ,， " (by decide)

/-- C6: the pest-name normalizer maps empty input to the empty string and
is idempotent: normalizing an already-normalized string returns it
unchanged. -/
theorem C6_normalizer :
    normalize_pest_name "" = "" ∧
    (∀ s : String, normalize_pest_name (normalize_pest_name s) = normalize_pest_name s) :=
  ⟨rfl, normalize_pest_name_idem_aux⟩

/-- C7: in the crop × single-pest strategy, a crop whose exact-crop plus
substring-pest lookup returns no rows contributes exactly one
NoMatchCard — whose explanation contains both the crop and the pest
keyword — and no ProductCard. -/
theorem C7_single_pest_nomatch (db : List Row) (crops : List String) (pest crop : String)
    (h : rowsCropPestLike db crop pest = []) :
    handle_crop_single_pest db crops pest = crops.flatMap (singlePestPerCrop db pest) ∧
    singlePestPerCrop db pest crop = [singlePestNoMatch crop pest] ∧
    (singlePestNoMatch crop pest).noMatch = true ∧
    substrB crop (singlePestNoMatch crop pest).errorMessage = true ∧
    substrB pest (singlePestNoMatch crop pest).errorMessage = true ∧
    (∀ c ∈ singlePestPerCrop db pest crop, c.noMatch = true) := by
  refine ⟨rfl, ?_, rfl, ?_, ?_, ?_⟩
  · unfold singlePestPerCrop
    rw [if_pos h]
  · show substrB crop ("無登記使用防治藥劑：" ++ crop ++ "的" ++ pest) = true
    rw [String.append_assoc ("無登記使用防治藥劑：" ++ crop) "的" pest]
    exact substrB_parts crop "無登記使用防治藥劑：" ("的" ++ pest)
  · show substrB pest ("無登記使用防治藥劑：" ++ crop ++ "的" ++ pest) = true
    rw [← String.append_empty ("無登記使用防治藥劑：" ++ crop ++ "的" ++ pest)]
    exact substrB_parts pest ("無登記使用防治藥劑：" ++ crop ++ "的") ""
  · intro c hc
    unfold singlePestPerCrop at hc
    rw [if_pos h] at hc
    rw [List.mem_singleton.mp hc]
    rfl

theorem C7_witness :
    handle_crop_single_pest dbA ["水稻"] "稻飛蝱" =
      [singlePestNoMatch "水稻" "稻飛蝱"] ∧
    substrB "水稻" (singlePestNoMatch "水稻" "稻飛蝱").errorMessage = true ∧
    substrB "稻飛蝱" (singlePestNoMatch "水稻" "稻飛蝱").errorMessage = true := by
  have h := C7_single_pest_nomatch dbA ["水稻"] "稻飛蝱" "水稻" (by decide)
  exact ⟨by decide, h.2.2.2.1, h.2.2.2.2.1⟩

/-- C3: after pass 1 of the crop × chemical/brand/barcode strategy, the
handler rewrites exactly the usage entries whose pest name is in the
cross-chemical duplicate set, by prefixing the marker `#`, leaving the
normalized field — which always equals the normalizer applied to the
original name — untouched; and when nothing was marked and at least two
mixed keywords were searched, the `沒有重複防治的害物` NoMatchCard is
inserted at the front of the result list. -/
theorem C3_overlap_marking (db : List Row) (crops kws chems brands barcodes : List String) :
    handle_crop_mixed_keywords db crops kws chems brands barcodes =
      (if markedCount (mixedDup db chems brands barcodes crops kws)
          (mixedPhase1 db chems brands barcodes crops kws).1 = 0 ∧ kws.length ≥ 2 then
        noOverlapCard crops kws ::
          (mixedPhase1 db chems brands barcodes crops kws).1.map
            (markCard (mixedDup db chems brands barcodes crops kws))
      else
        (mixedPhase1 db chems brands barcodes crops kws).1.map
          (markCard (mixedDup db chems brands barcodes crops kws))) ∧
    (noOverlapCard crops kws).noMatch = true ∧
    (noOverlapCard crops kws).errorMessage = "沒有重複防治的害物" ∧
    (∀ c ∈ (mixedPhase1 db chems brands barcodes crops kws).1, c.noMatch = false →
      (markCard (mixedDup db chems brands barcodes crops kws) c).usages =
        c.usages.map (markUsage (mixedDup db chems brands barcodes crops kws)) ∧
      ∀ u ∈ c.usages,
        (markUsage (mixedDup db chems brands barcodes crops kws) u).pestName =
          (if u.pestName ∈ mixedDup db chems brands barcodes crops kws
           then "#" ++ u.pestName else u.pestName) ∧
        (markUsage (mixedDup db chems brands barcodes crops kws) u).pestNameNormalized =
          u.pestNameNormalized ∧
        u.pestNameNormalized = normalize_pest_name u.pestName) := by
  refine ⟨rfl, rfl, rfl, ?_⟩
  intro c hc hnm
  constructor
  · unfold markCard
    rw [if_neg (by rw [hnm]; exact Bool.false_ne_true)]
  · intro u hu
    exact ⟨markUsage_pestName _ u, (markUsage_fields _ u).2.2.2.1,
      mixedPhase1_normalized chems brands barcodes crops kws c hc u hu⟩

theorem C3_witness :
    cardD.noMatch = false ∧
    (markUsage dupD usageD).pestName = "#夜蛾" ∧
    (markUsage dupD usageD).pestNameNormalized = normalize_pest_name usageD.pestName := by
  have h := C3_overlap_marking dbD ["甘藍"] ["甲基拌磷", "乙託"]
    (allChems dbD) (allBrands dbD) (allBarcodes dbD)
  have hc := h.2.2.2 cardD (by decide) (by decide)
  have hu := hc.2 usageD (by decide)
  refine ⟨by decide, ?_, ?_⟩
  · rw [show (markUsage dupD usageD).pestName =
      (markUsage (mixedDup dbD (allChems dbD) (allBrands dbD) (allBarcodes dbD)
        ["甘藍"] ["甲基拌磷", "乙託"]) usageD).pestName from rfl, hu.1]
    decide
  · rw [show (markUsage dupD usageD).pestNameNormalized =
      (markUsage (mixedDup dbD (allChems dbD) (allBrands dbD) (allBarcodes dbD)
        ["甘藍"] ["甲基拌磷", "乙託"]) usageD).pestNameNormalized from rfl, hu.2.1]
    exact hu.2.2

/-- C5 counterexample: on `dbB`, searching `c x y` returns the chemical-x
card whose two usage entries — pests `蛾` and `#蛾` with identical dosing
fields — both read `#蛾` after marker rewriting, so two entries of one
returned ProductCard agree on (pest, harvest, dilution, dosage). -/
theorem C5_counterexample :
    (search_pesticides dbB "c x y").any
      (fun c => !c.noMatch && c.usages.any
        (fun u => 2 ≤ c.usages.countP (fun v => sameUsage u v))) = true := by
  decide

/-- C5 (amended): provided no pest name in the database begins with the
marker character `#`, every card of every search result has pairwise
distinct usage entries under the (pest, harvest, dilution, dosage)
identity; and the usage deduplication returns an already-deduplicated
list unchanged, hence is idempotent. -/
theorem C5_usage_dedup :
    (∀ (db : List Row) (q : String), (∀ r ∈ db, r.pest.data.head? ≠ some '#') →
      ∀ c ∈ search_pesticides db q,
        c.usages.Pairwise (fun a b => sameUsage a b = false)) ∧
    (∀ l : List Usage, l.Pairwise (fun a b => sameUsage a b = false) →
      remove_duplicate_usages l = l) ∧
    (∀ l : List Usage,
      remove_duplicate_usages (remove_duplicate_usages l) = remove_duplicate_usages l) :=
  ⟨fun _ q hdb => search_usages_pairwise hdb q,
    fun _ h => remove_duplicate_usages_eq_self h,
    remove_duplicate_usages_idem⟩

theorem C5_witness :
    cardE.usages.Pairwise (fun a b => sameUsage a b = false) :=
  C5_usage_dedup.1 dbA "c q" (by decide) cardE (by decide)

/-- C8 counterexample: the intersection strategy stores the mechanism
columns without the `or ''` guard used everywhere else, so on `dbC`
(whose mechanism columns are NULL) it returns a ProductCard whose
mechanism-name field is null rather than the empty string. -/
theorem C8_counterexample :
    (handle_crop_pests_intersection dbC ["c"] ["pa", "pb"]).any
      (fun c => !c.noMatch && c.mechName == none) = true := by
  decide

/-- C8 (amended): at every card and usage-entry construction site except
the mechanism fields of the intersection strategy's ProductCards, missing
or null textual fields are stored as the empty string: the three usage
dosing fields and the guarded mechanism fields map null to `""`, and
every ProductCard of the other seven handlers carries non-null mechanism
fields. -/
theorem C8_empty_string_guards :
    (∀ r : Row, r.harvest = none → (mkUsage r).harvest = "") ∧
    (∀ r : Row, r.dilution = none → (mkUsage r).dilution = "") ∧
    (∀ r : Row, r.dosage = none → (mkUsage r).dosage = "") ∧
    (∀ (crop pest : String) (r : Row), r.mechName = none →
      (mkSinglePestCard crop pest r).mechName = some "") ∧
    (∀ (crop pest : String) (r : Row), r.mechNote = none →
      (mkSinglePestCard crop pest r).mechNote = some "") ∧
    (∀ r : Row, r.mechName = none → (mkPlainCard r).mechName = some "") ∧
    (∀ r : Row, r.mechNote = none → (mkPlainCard r).mechNote = some "") ∧
    (∀ (crop kw t : String) (r : Row), r.mechName = none →
      (mkMixedCard crop kw t r).mechName = some "") ∧
    (∀ (crop kw t : String) (r : Row), r.mechNote = none →
      (mkMixedCard crop kw t r).mechNote = some "") ∧
    (∀ (db : List Row) (crops : List String) (pest : String),
      ∀ c ∈ handle_crop_single_pest db crops pest, c.noMatch = false →
        c.mechName.isSome ∧ c.mechNote.isSome) ∧
    (∀ (db : List Row) (crops : List String),
      ∀ c ∈ handle_crop_only db crops, c.mechName.isSome ∧ c.mechNote.isSome) ∧
    (∀ (db : List Row) (kws : List String),
      ∀ c ∈ handle_chem_only db kws, c.mechName.isSome ∧ c.mechNote.isSome) ∧
    (∀ (db : List Row) (kws : List String),
      ∀ c ∈ handle_brand_only db kws, c.mechName.isSome ∧ c.mechNote.isSome) ∧
    (∀ (db : List Row) (kws : List String),
      ∀ c ∈ handle_barcode_only db kws, c.mechName.isSome ∧ c.mechNote.isSome) ∧
    (∀ (db : List Row) (kws : List String),
      ∀ c ∈ handle_fallback_partial_match db kws, c.mechName.isSome ∧ c.mechNote.isSome) ∧
    (∀ (db : List Row) (crops kws chems brands barcodes : List String),
      ∀ c ∈ handle_crop_mixed_keywords db crops kws chems brands barcodes,
        c.noMatch = false → c.mechName.isSome ∧ c.mechNote.isSome) := by
  refine ⟨fun r h => by unfold mkUsage; rw [h]; rfl,
    fun r h => by unfold mkUsage; rw [h]; rfl,
    fun r h => by unfold mkUsage; rw [h]; rfl,
    fun crop pest r h => by unfold mkSinglePestCard; rw [h]; rfl,
    fun crop pest r h => by unfold mkSinglePestCard; rw [h]; rfl,
    fun r h => by unfold mkPlainCard; rw [h]; rfl,
    fun r h => by unfold mkPlainCard; rw [h]; rfl,
    fun crop kw t r h => by unfold mkMixedCard; rw [h]; rfl,
    fun crop kw t r h => by unfold mkMixedCard; rw [h]; rfl,
    ?_, ?_, ?_, ?_, ?_, ?_, ?_⟩
  · intro db crops pest
    exact handle_single_pred
      (P := fun c => c.noMatch = false → c.mechName.isSome ∧ c.mechNote.isSome)
      (fun c us hc => hc)
      (fun crop hn => absurd (show (true : Bool) = false from hn) (by decide))
      (fun crop r _ => ⟨rfl, rfl⟩)
  · intro db crops c hc
    exact handle_crop_only_pred (P := fun c => c.mechName.isSome ∧ c.mechNote.isSome)
      (fun c us hc => hc) (fun r => ⟨rfl, rfl⟩) crops c hc
  · intro db kws c hc
    exact handle_chem_only_pred (P := fun c => c.mechName.isSome ∧ c.mechNote.isSome)
      (fun c us hc => hc) (fun r => ⟨rfl, rfl⟩) kws c hc
  · intro db kws c hc
    exact handle_brand_only_pred (P := fun c => c.mechName.isSome ∧ c.mechNote.isSome)
      (fun c us hc => hc) (fun r => ⟨rfl, rfl⟩) kws c hc
  · intro db kws c hc
    exact handle_barcode_only_pred (P := fun c => c.mechName.isSome ∧ c.mechNote.isSome)
      (fun c us hc => hc) (fun r => ⟨rfl, rfl⟩) kws c hc
  · intro db kws c hc
    exact handle_fallback_pred (P := fun c => c.mechName.isSome ∧ c.mechNote.isSome)
      (fun c us hc => hc) (fun r => ⟨rfl, rfl⟩) kws c hc
  · intro db crops kws chems brands barcodes
    refine handle_crop_mixed_pred
      (P := fun c => c.noMatch = false → c.mechName.isSome ∧ c.mechNote.isSome)
      ?_ ?_ ?_ ?_
    · intro crop kw t hn
      exact absurd (show (true : Bool) = false from hn) (by decide)
    · intro crop kw t rows _
      exact groupRows_pred (fun c us hc => hc) (fun r _ _ => ⟨rfl, rfl⟩)
    · intro hn
      exact absurd (show (true : Bool) = false from hn) (by decide)
    · intro c hc
      unfold markCard
      by_cases hn : c.noMatch
      · rw [if_pos hn]; exact hc
      · rw [if_neg hn]; exact hc

theorem C8_witness : (mkUsage rowE).harvest = "" :=
  C8_empty_string_guards.1 rowE rfl

/-- C9: none of the single-bucket strategies (crop-only, chemical-only,
brand-only, barcode-only, fallback) ever produces a NoMatchCard, and a
keyword whose lookup returns no rows contributes nothing: the handler's
output on any keyword list containing it equals the concatenation of its
outputs on the surrounding keywords. -/
theorem C9_single_bucket_no_nomatch :
    (∀ (db : List Row) (kws : List String),
      ∀ c ∈ handle_crop_only db kws, c.noMatch = false) ∧
    (∀ (db : List Row) (kws : List String),
      ∀ c ∈ handle_chem_only db kws, c.noMatch = false) ∧
    (∀ (db : List Row) (kws : List String),
      ∀ c ∈ handle_brand_only db kws, c.noMatch = false) ∧
    (∀ (db : List Row) (kws : List String),
      ∀ c ∈ handle_barcode_only db kws, c.noMatch = false) ∧
    (∀ (db : List Row) (kws : List String),
      ∀ c ∈ handle_fallback_partial_match db kws, c.noMatch = false) ∧
    (∀ (db : List Row) (kw : String) (pre post : List String), rowsCropEq db kw = [] →
      handle_crop_only db (pre ++ kw :: post) =
        handle_crop_only db pre ++ handle_crop_only db post) ∧
    (∀ (db : List Row) (kw : String) (pre post : List String), rowsChemEq db kw = [] →
      handle_chem_only db (pre ++ kw :: post) =
        handle_chem_only db pre ++ handle_chem_only db post) ∧
    (∀ (db : List Row) (kw : String) (pre post : List String), rowsBrandEq db kw = [] →
      handle_brand_only db (pre ++ kw :: post) =
        handle_brand_only db pre ++ handle_brand_only db post) ∧
    (∀ (db : List Row) (kw : String) (pre post : List String), rowsBarcodeEq db kw = [] →
      handle_barcode_only db (pre ++ kw :: post) =
        handle_barcode_only db pre ++ handle_barcode_only db post) ∧
    (∀ (db : List Row) (kw : String) (pre post : List String), rowsFuzzy db kw = [] →
      handle_fallback_partial_match db (pre ++ kw :: post) =
        handle_fallback_partial_match db pre ++ handle_fallback_partial_match db post) := by
  refine ⟨?_, ?_, ?_, ?_, ?_, ?_, ?_, ?_, ?_, ?_⟩
  · intro db kws c hc
    exact handle_crop_only_pred (P := fun c => c.noMatch = false)
      (fun c us hc => hc) (fun r => rfl) kws c hc
  · intro db kws c hc
    exact handle_chem_only_pred (P := fun c => c.noMatch = false)
      (fun c us hc => hc) (fun r => rfl) kws c hc
  · intro db kws c hc
    exact handle_brand_only_pred (P := fun c => c.noMatch = false)
      (fun c us hc => hc) (fun r => rfl) kws c hc
  · intro db kws c hc
    exact handle_barcode_only_pred (P := fun c => c.noMatch = false)
      (fun c us hc => hc) (fun r => rfl) kws c hc
  · intro db kws c hc
    exact handle_fallback_pred (P := fun c => c.noMatch = false)
      (fun c us hc => hc) (fun r => rfl) kws c hc
  · intro db kw pre post h
    exact handle_crop_only_skip h pre post
  · intro db kw pre post h
    exact handle_chem_only_skip h pre post
  · intro db kw pre post h
    exact handle_brand_only_skip h pre post
  · intro db kw pre post h
    exact handle_barcode_only_skip h pre post
  · intro db kw pre post h
    exact handle_fallback_skip h pre post

theorem C9_witness :
    cardF.noMatch = false ∧
    handle_crop_only dbA ([] ++ "nope" :: []) =
      handle_crop_only dbA [] ++ handle_crop_only dbA [] :=
  ⟨C9_single_bucket_no_nomatch.1 dbA ["c"] cardF (by decide),
    C9_single_bucket_no_nomatch.2.2.2.2.2.1 dbA "nope" [] [] (by decide)⟩

/-- C10: no handler ever sets the exact-match flag — every card of every
search result carries `hasExactMatch = false` — and consequently, on any
list of flag-less cards, the ranker's two-part sort coincides with the
stable sort by the extracted safe-harvest-interval key alone. -/
theorem C10_no_exact_match :
    (∀ (db : List Row) (q : String),
      ∀ c ∈ search_pesticides db q, c.hasExactMatch = false) ∧
    (∀ (l : List Card) (a b d : List String), (∀ x ∈ l, x.hasExactMatch = false) →
      deduplicate_and_sort_results l a b d = List.insertionSort daysLE l) := by
  constructor
  · intro db q
    exact search_pesticides_pred (P := fun c => c.hasExactMatch = false)
      (fun c us hc => hc) (fun crop pests => rfl) (fun crop pests r => rfl)
      (fun crop pest => rfl) (fun crop pest r => rfl) (fun crop kw t => rfl)
      (fun crop kw t r => rfl) (fun crops kws => rfl) (fun r => rfl) (fun r => rfl)
      (fun r => rfl) (fun r => rfl) q
  · intro l a b d h
    exact sort_flags_false l h a b d

theorem C10_witness :
    cardE.hasExactMatch = false ∧
    deduplicate_and_sort_results [card7] [] [] [] = List.insertionSort daysLE [card7] :=
  ⟨C10_no_exact_match.1 dbA "c q" cardE (by decide),
    C10_no_exact_match.2 [card7] [] [] [] (by decide)⟩

end PaiPai
